import Mathlib

/-!
Adaptive Risk & Mitigation Engine (`src/backend/server.js`)

A shallow embedding of the mutable state of the server and of the handlers that
change it, followed by theorems about them.

Modelling conventions.

* JavaScript numbers are modelled as exact rationals (`ℚ`).  Every number the
  server itself produces (deltas `1` and `5`, the forced score `5`, millisecond
  timestamps and durations) is an integer far below `2^53`, where the arithmetic
  of the source is exact.
* A JavaScript `Map` (and a plain object with string keys) is its list of entries
  in insertion order.  `JSMap.WF` says that the keys are pairwise distinct, which
  every real `Map` satisfies.
* Every clock read of the source (`Date.now()`, `new Date().toISOString()`) is an
  explicit argument of the function that performs it.
* `logger.*`, `console.log` and `io.emit` do not change the server state and are
  left out.
-/

namespace DDos

/-! ## JavaScript maps -/

/-- Entries of a JavaScript `Map` with string keys, in insertion order. -/
abbrev JSMap (β : Type) := List (String × β)

namespace JSMap

/-- `Map.prototype.get`: the value stored under `key`, `none` for `undefined`. -/
def get {β : Type} : JSMap β → String → Option β
  | [], _ => none
  | (k, v) :: rest, key => if k = key then some v else get rest key

/-- `Map.prototype.has`. -/
def has {β : Type} (m : JSMap β) (key : String) : Bool :=
  (get m key).isSome

/-- `Map.prototype.set`: overwrite in place when the key exists, else append. -/
def set {β : Type} : JSMap β → String → β → JSMap β
  | [], key, val => [(key, val)]
  | (k, v) :: rest, key, val =>
    if k = key then (k, val) :: rest else (k, v) :: set rest key val

/-- `Map.prototype.delete`. -/
def delete {β : Type} (m : JSMap β) (key : String) : JSMap β :=
  m.filter (fun e => decide (e.1 ≠ key))

/-- `Map.prototype.keys`, as a list. -/
def keys {β : Type} (m : JSMap β) : List String :=
  m.map Prod.fst

/-- Well-formedness of a map: no key occurs twice. -/
def WF {β : Type} (m : JSMap β) : Prop :=
  (keys m).Nodup

instance {β : Type} (m : JSMap β) : Decidable (WF m) := by
  unfold WF; infer_instance

end JSMap

/-! ## Server state -/

/-- One element of `requestLogs`. -/
structure LogEntry where
  timestamp : String
  ip : String
  method : String
  path : String
  location : String
  isp : String
  deriving DecidableEq, Repr

/-- The module-level mutable bindings of `server.js`. -/
structure State where
  requestTimeline : JSMap ℕ
  banTimeline : JSMap ℕ
  blockedIPs : JSMap ℚ
  ipReputation : JSMap ℚ
  requestCount : ℕ
  requestLogs : List LogEntry
  deriving DecidableEq

/-- `timeline[label] = (timeline[label] || 0) + 1`. -/
def incrementTimeline (timeline : JSMap ℕ) (label : String) : JSMap ℕ :=
  JSMap.set timeline label ((JSMap.get timeline label).getD 0 + 1)

/-! ## Adaptive risk engine settings -/

def RISK_THRESHOLD : ℚ := 5
def MAX_BAN_DURATION_MS : ℚ := 30 * 60 * 1000
def BASE_BAN_TIME_MS : ℚ := 5 * 60 * 1000
def RISK_DECAY_INTERVAL : ℚ := 60 * 1000
def RISK_DECAY_AMOUNT : ℚ := 1

/-- The centralized risk adjuster.  `now` is the value of `Date.now()` and
`minuteLabel` the value of `new Date().toISOString().slice(0, 16)` read in the
ban branch.  `ipReputation.get(ip) || 0` is `getD 0`: `undefined` and `0` both
give `0`. -/
def adjustRiskScore (ip : String) (delta : ℚ) (now : ℚ) (minuteLabel : String)
    (s : State) : State :=
  let score := (JSMap.get s.ipReputation ip).getD 0 + delta
  if score ≥ RISK_THRESHOLD then
    let banDuration := min (BASE_BAN_TIME_MS * score) MAX_BAN_DURATION_MS
    { s with
      blockedIPs := JSMap.set s.blockedIPs ip (now + banDuration)
      banTimeline := incrementTimeline s.banTimeline minuteLabel }
  else
    { s with ipReputation := JSMap.set s.ipReputation ip score }

/-- The periodic risk decay visits one entry of `ipReputation`: the body of the
`for ... of ipReputation.entries()` loop. -/
def decayStep (rep : JSMap ℚ) (entry : String × ℚ) : JSMap ℚ :=
  let newScore := entry.2 - RISK_DECAY_AMOUNT
  if newScore ≤ 0 then JSMap.delete rep entry.1 else JSMap.set rep entry.1 newScore

/-- One run of the `setInterval` callback.  The loop body only deletes or
overwrites the key it is visiting, so the live iteration of the source visits
exactly the entries present when the callback starts, each with its original
score. -/
def decayTick (s : State) : State :=
  { s with ipReputation := s.ipReputation.foldl decayStep s.ipReputation }

/-! ## Requests and middleware -/

/-- The parts of an Express request the engine reads. -/
structure Request where
  method : String
  path : String
  url : String
  xForwardedFor : Option String
  ip : String
  bodyIp : Option String
  deriving DecidableEq, Repr

/-- What a middleware or handler does with the request: call `next()` or send a
response with the given status. -/
inductive Outcome where
  | next
  | respond (status : ℕ)
  deriving DecidableEq, Repr

/-- `req.headers["x-forwarded-for"] || req.ip`. -/
def clientIP (req : Request) : String :=
  match req.xForwardedFor with
  | some h => if h = "" then req.ip else h
  | none => req.ip

/-- `String.prototype.toLowerCase` on request paths (ASCII case mapping). -/
def toLowerCase (path : String) : String :=
  String.mk (path.data.map Char.toLower)

def honeypots : List String :=
  ["/admin-panel", "/wp-login.php", "/api/hidden-login", "/private-api", "/cpanel"]

/-- `requestLogs.push(entry); if (requestLogs.length > 10000) requestLogs.shift();` -/
def pushLog (logs : List LogEntry) (entry : LogEntry) : List LogEntry :=
  let pushed := logs ++ [entry]
  if pushed.length > 10000 then pushed.tail else pushed

/-- The honeypot middleware.  `adjNow` and `adjLabel` are the clock reads made
inside `adjustRiskScore`, `now` is the `Date.now()` of the hard ban and
`timestamp` the `new Date().toISOString()` of the log entry. -/
def honeypotMiddleware (req : Request) (adjNow : ℚ) (adjLabel : String) (now : ℚ)
    (timestamp : String) (s : State) : State × Outcome :=
  let path := toLowerCase req.path
  let ip := clientIP req
  if path ∈ honeypots then
    let s1 := adjustRiskScore ip 5 adjNow adjLabel s
    let s2 := { s1 with blockedIPs := JSMap.set s1.blockedIPs ip (now + 1440 * 60 * 1000) }
    let entry : LogEntry :=
      { timestamp := timestamp, ip := ip, method := req.method, path := req.url,
        location := "🪤 Honeypot", isp := "Suspicious" }
    ({ s2 with requestLogs := pushLog s2.requestLogs entry }, Outcome.respond 403)
  else
    (s, Outcome.next)

/-- The middleware that blocks banned IPs; `now` is its `Date.now()`. -/
def banCheckMiddleware (req : Request) (now : ℚ) (s : State) : State × Outcome :=
  let ip := clientIP req
  match JSMap.get s.blockedIPs ip with
  | some unbanTime =>
    if now < unbanTime then
      (s, Outcome.respond 403)
    else
      ({ s with
         blockedIPs := JSMap.delete s.blockedIPs ip
         ipReputation := JSMap.delete s.ipReputation ip }, Outcome.next)
  | none => (s, Outcome.next)

/-- Express runs the second middleware only when the first one called `next()`. -/
def andThen (first second : State → State × Outcome) (s : State) : State × Outcome :=
  match first s with
  | (s1, Outcome.next) => second s1
  | (s1, Outcome.respond status) => (s1, Outcome.respond status)

/-- The handler of `POST /ban`; `!ip` holds for a missing and for an empty `ip`. -/
def postBan (req : Request) (now : ℚ) (minuteLabel : String) (s : State) :
    State × Outcome :=
  match req.bodyIp with
  | none => (s, Outcome.respond 400)
  | some ip =>
    if ip = "" then
      (s, Outcome.respond 400)
    else
      ({ s with
         blockedIPs := JSMap.set s.blockedIPs ip (now + 10 * 60 * 1000)
         ipReputation := JSMap.set s.ipReputation ip 5
         banTimeline := incrementTimeline s.banTimeline minuteLabel }, Outcome.respond 200)

/-- The handler of `POST /unban`. -/
def postUnban (req : Request) (s : State) : State × Outcome :=
  match req.bodyIp with
  | none => (s, Outcome.respond 400)
  | some ip =>
    if ip = "" then
      (s, Outcome.respond 400)
    else
      ({ s with
         blockedIPs := JSMap.delete s.blockedIPs ip
         ipReputation := JSMap.delete s.ipReputation ip }, Outcome.respond 200)

/-- The state once the module has been loaded: every container is created empty,
then line 30 counts one ban in the bucket of the start-up minute. -/
def initialState (startLabel : String) : State :=
  { requestTimeline := []
    banTimeline := incrementTimeline [] startLabel
    blockedIPs := []
    ipReputation := []
    requestCount := 0
    requestLogs := [] }

/-! ## Sequences of operations -/

/-- The operations that write to `ipReputation` or `blockedIPs`. -/
inductive Event where
  | adjust (ip : String) (delta : ℚ) (now : ℚ) (minuteLabel : String)
  | decay
  | honeypot (req : Request) (adjNow : ℚ) (adjLabel : String) (now : ℚ) (timestamp : String)
  | banCheck (req : Request) (now : ℚ)
  | ban (req : Request) (now : ℚ) (minuteLabel : String)
  | unban (req : Request)

/-- The state after one operation. -/
def Event.apply : Event → State → State
  | Event.adjust ip delta now minuteLabel, s => adjustRiskScore ip delta now minuteLabel s
  | Event.decay, s => decayTick s
  | Event.honeypot req adjNow adjLabel now timestamp, s =>
    (honeypotMiddleware req adjNow adjLabel now timestamp s).1
  | Event.banCheck req now, s => (banCheckMiddleware req now s).1
  | Event.ban req now minuteLabel, s => (postBan req now minuteLabel s).1
  | Event.unban req, s => (postUnban req s).1

/-- Callers of `adjustRiskScore` pass a positive delta. -/
def Event.PositiveDelta : Event → Prop
  | Event.adjust _ delta _ _ => 0 < delta
  | _ => True

/-- The state after a sequence of operations, oldest first. -/
def runEvents (events : List Event) (s : State) : State :=
  events.foldl (fun acc e => e.apply acc) s

/-- One call `adjustRiskScore(ip, delta)` with its clock reads. -/
structure AdjustCall where
  delta : ℚ
  now : ℚ
  minuteLabel : String

/-- A sequence of `adjustRiskScore` calls on one address. -/
def runAdjusts (ip : String) (calls : List AdjustCall) (s : State) : State :=
  calls.foldl (fun acc c => adjustRiskScore ip c.delta c.now c.minuteLabel acc) s

/-- The running sum of the deltas of a sequence of calls. -/
def deltaSum (calls : List AdjustCall) : ℚ :=
  (calls.map AdjustCall.delta).sum

/-- Every stored score is strictly positive. -/
def ScoresPositive (m : JSMap ℚ) : Prop :=
  ∀ e ∈ m, 0 < e.2

/-- What one decay tick does to one stored score: `none` when the record is
removed, the reduced score otherwise. -/
def decayScore (score : ℚ) : Option ℚ :=
  if score - RISK_DECAY_AMOUNT ≤ 0 then none else some (score - RISK_DECAY_AMOUNT)

/-- What one decay tick does to one entry of the score map. -/
def decayEntry (entry : String × ℚ) : Option (String × ℚ) :=
  (decayScore entry.2).map (fun v => (entry.1, v))

/-! ## The request pipeline -/

/-- What `fetchAndCacheIPInfo` resolves to for an address (`null` is `none`). -/
structure IPInfo where
  country : String
  city : String
  isp : String
  deriving DecidableEq, Repr

/-- `String.prototype.startsWith`. -/
def startsWith (text pre : String) : Bool :=
  pre.data.isPrefixOf text.data

/-- The test at the head of the logging middleware: requests for these paths are
neither counted nor logged. -/
def skipsLogging (path : String) : Bool :=
  startsWith path "/risky-ips" ||
  startsWith path "/risk-distribution" ||
  startsWith path "/graph-data" ||
  startsWith path "/logs" ||
  startsWith path "/dashboard"

/-- The logging middleware, the first stage of the pipeline.  `ipInfo` is the result
of `await fetchAndCacheIPInfo(clientIP)`, `timestamp` and `minuteLabel` are its
two clock reads.  The counter increment, the push and the timeline increment are
taken as one step: what other requests do while the lookup is pending is not
part of this function. -/
def loggingMiddleware (req : Request) (ipInfo : Option IPInfo) (timestamp : String)
    (minuteLabel : String) (s : State) : State × Outcome :=
  if skipsLogging req.path then
    (s, Outcome.next)
  else
    let logEntry : LogEntry :=
      { timestamp := timestamp, ip := clientIP req, method := req.method, path := req.url,
        location :=
          match ipInfo with
          | some info => info.city ++ ", " ++ info.country
          | none => "Unknown",
        isp :=
          match ipInfo with
          | some info => if info.isp = "" then "Unknown" else info.isp
          | none => "Unknown" }
    ({ s with
       requestCount := s.requestCount + 1
       requestLogs := pushLog s.requestLogs logEntry
       requestTimeline := incrementTimeline s.requestTimeline minuteLabel }, Outcome.next)

/-- The `handler` of a rate limiter: it runs when the limiter finds the quota of
the address exceeded. -/
def rateLimitHandler (req : Request) (now : ℚ) (minuteLabel : String) (s : State) :
    State × Outcome :=
  (adjustRiskScore (clientIP req) 1 now minuteLabel s, Outcome.respond 429)

/-- Whether middleware mounted with `app.use(mount, ...)` sees a request path:
Express matches the mount point itself and everything below it, ignoring case. -/
def mountMatches (mount path : String) : Bool :=
  toLowerCase path = mount || startsWith (toLowerCase path) (mount ++ "/")

/-- A rate limiter mounted at `mount`.  The window counters live inside
`express-rate-limit`; `quotaExceeded` is its verdict for this request. -/
def limiterAt (mount : String) (quotaExceeded : Bool) (req : Request) (now : ℚ)
    (minuteLabel : String) (s : State) : State × Outcome :=
  if mountMatches mount req.path && quotaExceeded then
    rateLimitHandler req now minuteLabel s
  else
    (s, Outcome.next)

/-- The clock reads and external answers one request consumes on its way through
the middleware. -/
structure RequestEnv where
  ipInfo : Option IPInfo
  logTimestamp : String
  logLabel : String
  adjNow : ℚ
  adjLabel : String
  honeypotNow : ℚ
  honeypotTimestamp : String
  banCheckNow : ℚ
  loginExceeded : Bool
  dataExceeded : Bool
  limiterNow : ℚ
  limiterLabel : String

/-- The middleware in the order `server.js` registers it: logging, honeypot, ban
check, the limiter of `/login`, the limiter of `/data`.  The outcome `next`
means that the request goes on to its route handler. -/
def mitigationGate (req : Request) (env : RequestEnv) : State → State × Outcome :=
  andThen (loggingMiddleware req env.ipInfo env.logTimestamp env.logLabel)
    (andThen
      (honeypotMiddleware req env.adjNow env.adjLabel env.honeypotNow env.honeypotTimestamp)
      (andThen (banCheckMiddleware req env.banCheckNow)
        (andThen (limiterAt "/login" env.loginExceeded req env.limiterNow env.limiterLabel)
          (limiterAt "/data" env.dataExceeded req env.limiterNow env.limiterLabel))))

/-- The handler of `POST /clear-logs`: `requestLogs.length = 0`. -/
def postClearLogs (s : State) : State × Outcome :=
  ({ s with requestLogs := [] }, Outcome.respond 200)

/-- Everything that changes the server state: the operations of `Event`, the
logging middleware and the clearing of the logs. -/
inductive ServerEvent where
  | engine (e : Event)
  | logging (req : Request) (ipInfo : Option IPInfo) (timestamp : String)
      (minuteLabel : String)
  | clearLogs

/-- The state after one server event. -/
def ServerEvent.apply : ServerEvent → State → State
  | ServerEvent.engine e, s => e.apply s
  | ServerEvent.logging req ipInfo timestamp minuteLabel, s =>
    (loggingMiddleware req ipInfo timestamp minuteLabel s).1
  | ServerEvent.clearLogs, s => (postClearLogs s).1

/-- The state after a sequence of server events, oldest first. -/
def runServerEvents (events : List ServerEvent) (s : State) : State :=
  events.foldl (fun acc e => e.apply acc) s

/-! ## Leaderboard and histogram -/

/-- The order the comparator `(a, b) => b.score - a.score` asks for: `a` may stand
before `b` when its score is not smaller. -/
def scoreGE (a b : String × ℚ) : Prop :=
  b.2 ≤ a.2

instance : DecidableRel scoreGE := fun a b => inferInstanceAs (Decidable (b.2 ≤ a.2))

instance : IsTotal (String × ℚ) scoreGE := ⟨fun a b => le_total b.2 a.2⟩

instance : IsTrans (String × ℚ) scoreGE := ⟨fun _ _ _ hab hbc => le_trans hbc hab⟩

/-- `Array.from(ipReputation.entries()).map(...).sort((a, b) => b.score - a.score)`.
`Array.prototype.sort` is stable, and the stable arrangement in comparator order is
unique; insertion sort computes it.  The `info` field that `map` adds from the
file cache plays no part in the order and is left out. -/
def riskySortedIPs (rep : JSMap ℚ) : List (String × ℚ) :=
  List.insertionSort scoreGE rep

/-- `Array.prototype.slice(0, end)`: `NaN` (`none`) counts as 0 and a negative
`end` counts from the end of the array. -/
def sliceFromStart {α : Type} (xs : List α) (end_ : Option ℤ) : List α :=
  match end_ with
  | none => []
  | some n => if 0 ≤ n then xs.take n.toNat else xs.take (xs.length - (-n).toNat)

/-- The handler of `GET /risky-ips`.  `queryLimit` is `req.query.limit` and
`parseInt` the JavaScript builtin, with `none` for `NaN`. -/
def getRiskyIPs (parseInt : String → Option ℤ) (queryLimit : Option String) (s : State) :
    List (String × ℚ) :=
  let limit : Option ℤ :=
    match queryLimit with
    | some text => if text = "" then some 10 else parseInt text
    | none => some 10
  sliceFromStart (riskySortedIPs s.ipReputation) limit

/-- What the leaderboard of the `N` riskiest addresses of `rep` has to be: as many
rows as possible up to `N`, all of them records of `rep`, in non-increasing order
of score, no omitted record scoring higher than a row, and rows of equal score in
the insertion order of `rep`. -/
def IsLeaderboard (rep : JSMap ℚ) (N : ℕ) (rows : List (String × ℚ)) : Prop :=
  rows.length = min N rep.length ∧
  (∀ e ∈ rows, e ∈ rep) ∧
  rows.Sorted scoreGE ∧
  (∀ a ∈ rows, ∀ b ∈ rep, b ∉ rows → b.2 ≤ a.2) ∧
  ∀ score : ℚ, rows.filter (fun e => decide (e.2 = score)) <+:
    rep.filter (fun e => decide (e.2 = score))

/-- The builtin `parseInt` on plain decimal numerals; every other string is left
at `NaN`.  Used to exercise the leaderboard on concrete query strings. -/
def parseDecimal (text : String) : Option ℤ :=
  if text.data ≠ [] ∧ text.data.all Char.isDigit = true then
    some ((text.data.foldl (fun acc c => 10 * acc + (c.toNat - 48)) 0 : ℕ) : ℤ)
  else
    none

/-- The `distribution` object: bucket numbers with their counts.  Property keys
are the decimal strings of the bucket numbers, which are distinct for distinct
integers, so the object is keyed by the integer here; the order of the entries
carries no meaning. -/
abbrev Histogram := List (ℤ × ℕ)

/-- `distribution[bucket]`. -/
def Histogram.get : Histogram → ℤ → Option ℕ
  | [], _ => none
  | (k, v) :: rest, bucket => if k = bucket then some v else Histogram.get rest bucket

/-- `distribution[bucket] = value`. -/
def Histogram.set : Histogram → ℤ → ℕ → Histogram
  | [], bucket, value => [(bucket, value)]
  | (k, v) :: rest, bucket, value =>
    if k = bucket then (k, value) :: rest else (k, v) :: Histogram.set rest bucket value

/-- `distribution[bucket] = (distribution[bucket] || 0) + 1`. -/
def Histogram.increment (d : Histogram) (bucket : ℤ) : Histogram :=
  Histogram.set d bucket ((Histogram.get d bucket).getD 0 + 1)

/-- The histogram built by `GET /risk-distribution` and, with the same loop, by
`broadcastUpdate` for `updateRiskDistribution`; `Math.floor(score)` is `⌊score⌋`. -/
def riskDistribution (rep : JSMap ℚ) : Histogram :=
  rep.foldl (fun distribution entry => Histogram.increment distribution ⌊entry.2⌋) []

/-! ## The dashboard -/

/-- `String.prototype.includes`. -/
def includes (text part : String) : Bool :=
  decide (part.data <:+: text.data)

/-- The rows of the request-log table of `App.jsx`:
`logs.filter(log => !filterIP || log.ip.includes(filterIP)).slice(0, 50)`. -/
def displayedLogs (logs : List LogEntry) (filterIP : String) : List LogEntry :=
  (logs.filter (fun log => filterIP = "" || includes log.ip filterIP)).take 50

/-! ## The server as wired -/

/-- What happens to a running server: a request passes through the middleware,
a manual ban or unban reaches its handler, the logs are cleared, or the decay
timer fires.  `adjustRiskScore` is only reached from inside the middleware. -/
inductive PipelineEvent where
  | request (req : Request) (env : RequestEnv)
  | ban (req : Request) (now : ℚ) (minuteLabel : String)
  | unban (req : Request)
  | clearLogs
  | decay

/-- The state after one event of the running server. -/
def PipelineEvent.apply : PipelineEvent → State → State
  | PipelineEvent.request req env, s => (mitigationGate req env s).1
  | PipelineEvent.ban req now minuteLabel, s => (postBan req now minuteLabel s).1
  | PipelineEvent.unban req, s => (postUnban req s).1
  | PipelineEvent.clearLogs, s => (postClearLogs s).1
  | PipelineEvent.decay, s => decayTick s

/-- The state after a sequence of events of the running server, oldest first. -/
def runPipeline (events : List PipelineEvent) (s : State) : State :=
  events.foldl (fun acc e => e.apply acc) s

/-- A score is an integer between 1 and 5. -/
def IsWiredScore (score : ℚ) : Prop :=
  ∃ n : ℕ, 1 ≤ n ∧ n ≤ 5 ∧ score = n

/-- Every stored score is an integer between 1 and 5, and an address whose
score is 5 has a ban record. -/
def WiredInvariant (s : State) : Prop :=
  (∀ e ∈ s.ipReputation, IsWiredScore e.2) ∧
  ∀ e ∈ s.ipReputation, e.2 = 5 → (JSMap.get s.blockedIPs e.1).isSome = true

/-! ## Concrete states used to exercise the theorems -/

/-- A state with two scored addresses, one ban bucket and one address under a
24-hour ban installed at time 0. -/
def sampleState : State :=
  { requestTimeline := [("2025-01-01T00:00", 3)]
    banTimeline := [("2025-01-01T00:00", 1)]
    blockedIPs := [("10.0.0.3", 86400000)]
    ipReputation := [("10.0.0.1", 4), ("10.0.0.2", 2)]
    requestCount := 3
    requestLogs := [] }

/-- A short history: three rate-limit penalties, a decay tick, a manual ban of
another address and its unban. -/
def sampleEvents : List Event :=
  [ Event.adjust "10.0.0.1" 1 1000 "2025-01-01T00:00",
    Event.adjust "10.0.0.1" 1 2000 "2025-01-01T00:00",
    Event.adjust "10.0.0.1" 1 3000 "2025-01-01T00:00",
    Event.decay,
    Event.ban ⟨"POST", "/ban", "/ban", none, "127.0.0.1", some "10.0.0.2"⟩ 4000
      "2025-01-01T00:00",
    Event.unban ⟨"POST", "/unban", "/unban", none, "127.0.0.1", some "10.0.0.2"⟩ ]

/-- A request for the decoy path `/wp-login.php`, in mixed case, from `10.0.0.1`. -/
def sampleHoneypotRequest : Request :=
  { method := "GET", path := "/WP-Login.php", url := "/WP-Login.php?user=admin",
    xForwardedFor := some "10.0.0.1", ip := "127.0.0.1", bodyIp := none }

/-- A request from `10.0.0.3`, the banned address of `sampleState`. -/
def sampleBannedRequest : Request :=
  { method := "GET", path := "/data", url := "/data", xForwardedFor := none,
    ip := "10.0.0.3", bodyIp := none }

/-- `POST /ban` with body ip `10.0.0.3`. -/
def sampleBanRequest : Request :=
  { method := "POST", path := "/ban", url := "/ban", xForwardedFor := none,
    ip := "127.0.0.1", bodyIp := some "10.0.0.3" }

/-- `POST /unban` with body ip `10.0.0.3`. -/
def sampleUnbanRequest : Request :=
  { method := "POST", path := "/unban", url := "/unban", xForwardedFor := none,
    ip := "127.0.0.1", bodyIp := some "10.0.0.3" }

/-- The score map `{X: 3, Y: 7, Z: 1}` in an otherwise fresh server. -/
def xyzState : State :=
  { initialState "2025-01-01T00:00" with ipReputation := [("X", 3), ("Y", 7), ("Z", 1)] }

/-- A request to `/login` from `10.0.0.1`, whose score in `sampleState` is 4. -/
def sampleLoginRequest : Request :=
  { method := "POST", path := "/login", url := "/login", xForwardedFor := some "10.0.0.1",
    ip := "127.0.0.1", bodyIp := none }

/-- A log entry used to fill logs. -/
def sampleLogEntry : LogEntry :=
  { timestamp := "2025-01-01T00:00:00.000Z", ip := "10.0.0.1", method := "GET",
    path := "/data", location := "Unknown", isp := "Unknown" }

/-- A log entry newer than `sampleLogEntry`. -/
def newerLogEntry : LogEntry :=
  { timestamp := "2025-01-01T00:05:00.000Z", ip := "10.0.0.1", method := "GET",
    path := "/data", location := "Unknown", isp := "Unknown" }

/-- A request for `/dashboard` from `10.0.0.3`, the banned address of `sampleState`. -/
def sampleDashboardRequest : Request :=
  { method := "GET", path := "/dashboard", url := "/dashboard", xForwardedFor := none,
    ip := "10.0.0.3", bodyIp := none }

/-- Clock reads around time 1000 in the minute `2025-01-01T00:00`, no metadata
for the address and both limiters below their quota. -/
def sampleEnv : RequestEnv :=
  { ipInfo := none
    logTimestamp := "2025-01-01T00:00:01.000Z"
    logLabel := "2025-01-01T00:00"
    adjNow := 1000
    adjLabel := "2025-01-01T00:00"
    honeypotNow := 1000
    honeypotTimestamp := "2025-01-01T00:00:01.000Z"
    banCheckNow := 1000
    loginExceeded := false
    dataExceeded := false
    limiterNow := 1000
    limiterLabel := "2025-01-01T00:00" }

/-- `POST /ban` without an `ip` in the body. -/
def sampleEmptyBanRequest : Request :=
  { method := "POST", path := "/ban", url := "/ban", xForwardedFor := none,
    ip := "127.0.0.1", bodyIp := none }

/-- A log of 51 entries as the server sends it, oldest first: fifty copies of
`sampleLogEntry` followed by the newer `newerLogEntry`. -/
def sampleLogs : List LogEntry :=
  List.replicate 50 sampleLogEntry ++ [newerLogEntry]

/-- The clock reads of `sampleEnv`, with the limiter of `/login` over its quota. -/
def sampleExceededEnv : RequestEnv :=
  { sampleEnv with loginExceeded := true }

/-- Four requests to `/login` from `10.0.0.1`, each over the quota. -/
def samplePipelineEvents : List PipelineEvent :=
  List.replicate 4 (PipelineEvent.request sampleLoginRequest sampleExceededEnv)

/-! ## Map lemmas -/

namespace JSMap

theorem get_set_self {β : Type} (m : JSMap β) (key : String) (val : β) :
    get (set m key val) key = some val := by
  induction m with
  | nil => simp [set, get]
  | cons e rest ih =>
    obtain ⟨k, v⟩ := e
    by_cases h : k = key
    · simp [set, get, h]
    · simp [set, get, h, ih]

theorem get_set_other {β : Type} (m : JSMap β) (key key' : String) (val : β)
    (h : key' ≠ key) : get (set m key val) key' = get m key' := by
  induction m with
  | nil => simp [set, get, Ne.symm h]
  | cons e rest ih =>
    obtain ⟨k, v⟩ := e
    by_cases hk : k = key
    · subst hk
      simp [set, get, Ne.symm h]
    · by_cases hk' : k = key'
      · subst hk'
        simp [set, get, h]
      · simp [set, get, hk, hk', ih]

theorem get_delete_self {β : Type} (m : JSMap β) (key : String) :
    get (delete m key) key = none := by
  induction m with
  | nil => simp [delete, get]
  | cons e rest ih =>
    obtain ⟨k, v⟩ := e
    by_cases h : k = key
    · simpa [delete, List.filter_cons, h] using ih
    · simpa [delete, List.filter_cons, h, get] using ih

theorem get_delete_other {β : Type} (m : JSMap β) (key key' : String)
    (h : key' ≠ key) : get (delete m key) key' = get m key' := by
  induction m with
  | nil => simp [delete, get]
  | cons e rest ih =>
    obtain ⟨k, v⟩ := e
    by_cases hk : k = key
    · subst hk
      simpa [delete, List.filter_cons, get, Ne.symm h] using ih
    · by_cases hk' : k = key'
      · subst hk'
        simp [delete, List.filter_cons, h, get]
      · simpa [delete, List.filter_cons, hk, get, hk'] using ih

theorem mem_of_get_eq_some {β : Type} (m : JSMap β) (key : String) (val : β)
    (h : get m key = some val) : (key, val) ∈ m := by
  induction m with
  | nil => simp [get] at h
  | cons e rest ih =>
    obtain ⟨k, v⟩ := e
    by_cases hk : k = key
    · subst hk
      simp only [get, if_true, Option.some.injEq] at h
      subst h
      exact List.mem_cons_self _ _
    · simp only [get, if_neg hk] at h
      exact List.mem_cons_of_mem _ (ih h)

theorem get_eq_none_of_not_mem_keys {β : Type} (m : JSMap β) (key : String)
    (h : key ∉ keys m) : get m key = none := by
  induction m with
  | nil => rfl
  | cons e rest ih =>
    obtain ⟨k, v⟩ := e
    simp only [keys, List.map_cons, List.mem_cons, not_or] at h
    have hk : ¬ k = key := fun hk => h.1 hk.symm
    simp only [get, if_neg hk]
    exact ih h.2

theorem mem_set {β : Type} (m : JSMap β) (key : String) (val : β) (e : String × β)
    (h : e ∈ set m key val) : e ∈ m ∨ e = (key, val) := by
  induction m with
  | nil =>
    simp only [set, List.mem_singleton] at h
    exact Or.inr h
  | cons a rest ih =>
    obtain ⟨k, v⟩ := a
    by_cases hk : k = key
    · subst hk
      simp only [set, if_true, List.mem_cons] at h
      rcases h with h | h
      · exact Or.inr h
      · exact Or.inl (List.mem_cons_of_mem _ h)
    · simp only [set, if_neg hk, List.mem_cons] at h
      rcases h with h | h
      · exact Or.inl (h ▸ List.mem_cons_self _ _)
      · rcases ih h with h' | h'
        · exact Or.inl (List.mem_cons_of_mem _ h')
        · exact Or.inr h'

theorem mem_of_mem_delete {β : Type} (m : JSMap β) (key : String) (e : String × β)
    (h : e ∈ delete m key) : e ∈ m :=
  (List.mem_filter.mp h).1

theorem delete_delete {β : Type} (m : JSMap β) (key : String) :
    delete (delete m key) key = delete m key := by
  simp [delete, List.filter_filter]

end JSMap

/-! ## The risk adjuster -/

theorem adjustRiskScore_of_ge (ip : String) (delta now : ℚ) (minuteLabel : String)
    (s : State) (h : 5 ≤ (JSMap.get s.ipReputation ip).getD 0 + delta) :
    adjustRiskScore ip delta now minuteLabel s =
      { s with
        blockedIPs := JSMap.set s.blockedIPs ip
          (now + min (300000 * ((JSMap.get s.ipReputation ip).getD 0 + delta)) 1800000)
        banTimeline := incrementTimeline s.banTimeline minuteLabel } := by
  have h' : (JSMap.get s.ipReputation ip).getD 0 + delta ≥ RISK_THRESHOLD := by
    simpa [RISK_THRESHOLD] using h
  simp only [adjustRiskScore, if_pos h']
  norm_num [BASE_BAN_TIME_MS, MAX_BAN_DURATION_MS]

theorem adjustRiskScore_of_lt (ip : String) (delta now : ℚ) (minuteLabel : String)
    (s : State) (h : (JSMap.get s.ipReputation ip).getD 0 + delta < 5) :
    adjustRiskScore ip delta now minuteLabel s =
      { s with
        ipReputation := JSMap.set s.ipReputation ip
          ((JSMap.get s.ipReputation ip).getD 0 + delta) } := by
  have h' : ¬ (JSMap.get s.ipReputation ip).getD 0 + delta ≥ RISK_THRESHOLD := by
    simpa [RISK_THRESHOLD] using h
  simp only [adjustRiskScore, if_neg h']

/-- C1: for every state, address, time and positive delta, with `new` the stored
score (0 when absent) plus delta: after `adjustRiskScore` the ban map holds
`ip ↦ now + min(300000 * new, 1800000)` when `new ≥ 5`, the ban map is unchanged
when `new < 5`, and in both cases the ban record of every other address is
unchanged. -/
theorem adjustRiskScore_ban_map (s : State) (ip : String) (now delta : ℚ)
    (minuteLabel : String) (hdelta : 0 < delta) :
    (5 ≤ (JSMap.get s.ipReputation ip).getD 0 + delta →
      JSMap.get (adjustRiskScore ip delta now minuteLabel s).blockedIPs ip =
        some (now + min (300000 * ((JSMap.get s.ipReputation ip).getD 0 + delta)) 1800000)) ∧
    ((JSMap.get s.ipReputation ip).getD 0 + delta < 5 →
      (adjustRiskScore ip delta now minuteLabel s).blockedIPs = s.blockedIPs) ∧
    ∀ other : String, other ≠ ip →
      JSMap.get (adjustRiskScore ip delta now minuteLabel s).blockedIPs other =
        JSMap.get s.blockedIPs other := by
  have _ := hdelta
  refine ⟨fun h => ?_, fun h => ?_, fun other hne => ?_⟩
  · rw [adjustRiskScore_of_ge ip delta now minuteLabel s h]
    exact JSMap.get_set_self _ _ _
  · rw [adjustRiskScore_of_lt ip delta now minuteLabel s h]
  · rcases le_or_lt 5 ((JSMap.get s.ipReputation ip).getD 0 + delta) with h | h
    · rw [adjustRiskScore_of_ge ip delta now minuteLabel s h]
      exact JSMap.get_set_other _ _ _ _ hne
    · rw [adjustRiskScore_of_lt ip delta now minuteLabel s h]

/-- C3: `adjustRiskScore` persists the score only below the threshold.  With `new`
the stored score (0 when absent) plus a positive delta: if `new < 5` the score map
afterwards maps `ip` to `new` and every other address as before; if `new ≥ 5` the
score map is exactly the one before the call. -/
theorem adjustRiskScore_score_map (s : State) (ip : String) (now delta : ℚ)
    (minuteLabel : String) (hdelta : 0 < delta) :
    ((JSMap.get s.ipReputation ip).getD 0 + delta < 5 →
      JSMap.get (adjustRiskScore ip delta now minuteLabel s).ipReputation ip =
          some ((JSMap.get s.ipReputation ip).getD 0 + delta) ∧
        ∀ other : String, other ≠ ip →
          JSMap.get (adjustRiskScore ip delta now minuteLabel s).ipReputation other =
            JSMap.get s.ipReputation other) ∧
    (5 ≤ (JSMap.get s.ipReputation ip).getD 0 + delta →
      (adjustRiskScore ip delta now minuteLabel s).ipReputation = s.ipReputation) := by
  have _ := hdelta
  refine ⟨fun h => ?_, fun h => ?_⟩
  · rw [adjustRiskScore_of_lt ip delta now minuteLabel s h]
    exact ⟨JSMap.get_set_self _ _ _, fun other hne => JSMap.get_set_other _ _ _ _ hne⟩
  · rw [adjustRiskScore_of_ge ip delta now minuteLabel s h]

/-- Witness of C1 on `sampleState`, where `10.0.0.1` has score 4 and receives 1. -/
theorem adjustRiskScore_ban_map_witness :
    (0 : ℚ) < 1 ∧
      JSMap.get (adjustRiskScore "10.0.0.1" 1 1000 "2025-01-01T00:01" sampleState).blockedIPs
        "10.0.0.1" = some 1501000 ∧
      JSMap.get (adjustRiskScore "10.0.0.1" 1 1000 "2025-01-01T00:01" sampleState).blockedIPs
        "10.0.0.3" = some 86400000 := by
  have h := adjustRiskScore_ban_map sampleState "10.0.0.1" 1000 1 "2025-01-01T00:01"
    (by norm_num)
  refine ⟨by norm_num, ?_, ?_⟩
  · have h1 := h.1 (by norm_num [sampleState, JSMap.get])
    rw [h1]
    norm_num [sampleState, JSMap.get]
  · have h2 := h.2.2 "10.0.0.3" (by decide)
    rw [h2]
    simp [sampleState, JSMap.get]

/-- Witness of C3 on `sampleState`, where `10.0.0.2` has score 2 and receives 1. -/
theorem adjustRiskScore_score_map_witness :
    (0 : ℚ) < 1 ∧
      JSMap.get (adjustRiskScore "10.0.0.2" 1 1000 "2025-01-01T00:01" sampleState).ipReputation
        "10.0.0.2" = some 3 := by
  have h := adjustRiskScore_score_map sampleState "10.0.0.2" 1000 1 "2025-01-01T00:01"
    (by norm_num)
  refine ⟨by norm_num, ?_⟩
  have h1 := (h.1 (by simp [sampleState, JSMap.get]; norm_num)).1
  rw [h1]
  simp [sampleState, JSMap.get]
  norm_num

/-! ## Sequences of adjustments -/

theorem runAdjusts_append (ip : String) (pre : List AdjustCall) (c : AdjustCall)
    (s : State) :
    runAdjusts ip (pre ++ [c]) s =
      adjustRiskScore ip c.delta c.now c.minuteLabel (runAdjusts ip pre s) := by
  simp [runAdjusts, List.foldl_append]

theorem deltaSum_append (pre post : List AdjustCall) :
    deltaSum (pre ++ post) = deltaSum pre + deltaSum post := by
  simp [deltaSum, List.map_append, List.sum_append]

theorem deltaSum_nonneg (calls : List AdjustCall) (hpos : ∀ x ∈ calls, 0 < x.delta) :
    0 ≤ deltaSum calls := by
  induction calls with
  | nil => simp [deltaSum]
  | cons c rest ih =>
    have hc : 0 < c.delta := hpos c (List.mem_cons_self _ _)
    have hr : 0 ≤ deltaSum rest := ih (fun x hx => hpos x (List.mem_cons_of_mem _ hx))
    have : deltaSum (c :: rest) = c.delta + deltaSum rest := by simp [deltaSum]
    rw [this]
    linarith

/-- While the running sum stays below the threshold, the calls leave the ban map
alone and store the running sum as the score. -/
theorem runAdjusts_below (ip : String) (s : State)
    (hrep : JSMap.get s.ipReputation ip = none) (calls : List AdjustCall) :
    (∀ x ∈ calls, 0 < x.delta) → deltaSum calls < 5 →
      (runAdjusts ip calls s).blockedIPs = s.blockedIPs ∧
      (JSMap.get (runAdjusts ip calls s).ipReputation ip).getD 0 = deltaSum calls ∧
      (calls ≠ [] →
        JSMap.get (runAdjusts ip calls s).ipReputation ip = some (deltaSum calls)) := by
  induction calls using List.reverseRecOn with
  | nil =>
    intro _ _
    simp [runAdjusts, deltaSum, hrep]
  | append_singleton pre c ih =>
    intro hpos hlt
    have hc : 0 < c.delta := hpos c (by simp)
    have hsum : deltaSum (pre ++ [c]) = deltaSum pre + c.delta := by
      rw [deltaSum_append]; simp [deltaSum]
    have hpre : deltaSum pre < 5 := by rw [hsum] at hlt; linarith
    obtain ⟨hb, hs, _⟩ := ih (fun x hx => hpos x (by simp [hx])) hpre
    have hnew : (JSMap.get (runAdjusts ip pre s).ipReputation ip).getD 0 + c.delta < 5 := by
      rw [hs, ← hsum]; exact hlt
    rw [runAdjusts_append, adjustRiskScore_of_lt ip c.delta c.now c.minuteLabel _ hnew]
    refine ⟨hb, ?_, fun _ => ?_⟩
    · simp only [JSMap.get_set_self, Option.getD_some, hs, hsum]
    · simp only [JSMap.get_set_self, hs, hsum]

/-- C2: an address starts with no reputation record and no ban record and
receives a sequence of `adjustRiskScore` calls with positive deltas.  If the
running sum of the deltas first reaches 5 or more at the call `c` that follows
the calls `pre`, then after every initial segment of `pre` the address has no ban
record and its stored score is the running sum, and right after `c` it has a ban
record expiring at `c.now + min(300000 * sum, 1800000)`. -/
theorem threshold_property (s : State) (ip : String) (pre : List AdjustCall)
    (c : AdjustCall)
    (hrep : JSMap.get s.ipReputation ip = none)
    (hban : JSMap.get s.blockedIPs ip = none)
    (hpos : ∀ x ∈ pre ++ [c], 0 < x.delta)
    (hlt : deltaSum pre < 5) (hge : 5 ≤ deltaSum (pre ++ [c])) :
    (∀ done : List AdjustCall, done <+: pre →
      JSMap.get (runAdjusts ip done s).blockedIPs ip = none ∧
      (JSMap.get (runAdjusts ip done s).ipReputation ip).getD 0 = deltaSum done ∧
      (done ≠ [] →
        JSMap.get (runAdjusts ip done s).ipReputation ip = some (deltaSum done))) ∧
    JSMap.get (runAdjusts ip (pre ++ [c]) s).blockedIPs ip =
      some (c.now + min (300000 * deltaSum (pre ++ [c])) 1800000) := by
  have hsum : deltaSum (pre ++ [c]) = deltaSum pre + c.delta := by
    rw [deltaSum_append]; simp [deltaSum]
  constructor
  · rintro done ⟨rest, rfl⟩
    have hrest : 0 ≤ deltaSum rest :=
      deltaSum_nonneg rest (fun x hx => hpos x (by simp [hx]))
    have hdone : deltaSum done < 5 := by
      rw [deltaSum_append] at hlt; linarith
    obtain ⟨hb, hs, hsome⟩ :=
      runAdjusts_below ip s hrep done (fun x hx => hpos x (by simp [hx])) hdone
    exact ⟨by rw [hb]; exact hban, hs, hsome⟩
  · obtain ⟨_, hs, _⟩ :=
      runAdjusts_below ip s hrep pre (fun x hx => hpos x (by simp [hx])) hlt
    have hnew : 5 ≤ (JSMap.get (runAdjusts ip pre s).ipReputation ip).getD 0 + c.delta := by
      rw [hs, ← hsum]; exact hge
    rw [runAdjusts_append, adjustRiskScore_of_ge ip c.delta c.now c.minuteLabel _ hnew]
    simp only [JSMap.get_set_self, hs, hsum]

/-- Witness of C2: deltas 2, 2, 1 on the fresh address `10.0.0.9`. -/
theorem threshold_property_witness :
    JSMap.get (runAdjusts "10.0.0.9" [⟨2, 100, "m1"⟩] sampleState).blockedIPs "10.0.0.9" = none ∧
    JSMap.get (runAdjusts "10.0.0.9" [⟨2, 100, "m1"⟩] sampleState).ipReputation "10.0.0.9" =
      some 2 ∧
    JSMap.get (runAdjusts "10.0.0.9" [⟨2, 100, "m1"⟩, ⟨2, 200, "m2"⟩, ⟨1, 300, "m3"⟩]
      sampleState).blockedIPs "10.0.0.9" = some 1500300 := by
  have h := threshold_property sampleState "10.0.0.9" [⟨2, 100, "m1"⟩, ⟨2, 200, "m2"⟩]
    ⟨1, 300, "m3"⟩ (by simp [sampleState, JSMap.get]) (by simp [sampleState, JSMap.get])
    (by
      intro x hx
      simp only [List.cons_append, List.nil_append, List.mem_cons, List.mem_singleton,
        List.mem_nil_iff, or_false] at hx
      rcases hx with rfl | rfl | rfl <;> norm_num)
    (by norm_num [deltaSum]) (by norm_num [deltaSum])
  have h1 := h.1 [⟨2, 100, "m1"⟩] ⟨[⟨2, 200, "m2"⟩], rfl⟩
  refine ⟨h1.1, ?_, ?_⟩
  · have h2 := h1.2.2 (by simp)
    rw [h2]
    norm_num [deltaSum]
  · have h3 := h.2
    simp only [List.cons_append, List.nil_append] at h3
    rw [h3]
    norm_num [deltaSum]

/-! ## Positivity of stored scores -/

theorem scoresPositive_set {m : JSMap ℚ} (h : ScoresPositive m) (key : String) {val : ℚ}
    (hval : 0 < val) : ScoresPositive (JSMap.set m key val) := by
  intro e he
  rcases JSMap.mem_set m key val e he with h' | h'
  · exact h e h'
  · rw [h']; exact hval

theorem scoresPositive_delete {m : JSMap ℚ} (h : ScoresPositive m) (key : String) :
    ScoresPositive (JSMap.delete m key) :=
  fun e he => h e (JSMap.mem_of_mem_delete m key e he)

theorem scoresPositive_getD_nonneg {m : JSMap ℚ} (h : ScoresPositive m) (key : String) :
    0 ≤ (JSMap.get m key).getD 0 := by
  cases hg : JSMap.get m key with
  | none => simp
  | some v => exact le_of_lt (h _ (JSMap.mem_of_get_eq_some m key v hg))

theorem scoresPositive_adjustRiskScore {s : State} (h : ScoresPositive s.ipReputation)
    (ip : String) {delta : ℚ} (hdelta : 0 < delta) (now : ℚ) (minuteLabel : String) :
    ScoresPositive (adjustRiskScore ip delta now minuteLabel s).ipReputation := by
  rcases le_or_lt 5 ((JSMap.get s.ipReputation ip).getD 0 + delta) with hc | hc
  · rw [adjustRiskScore_of_ge ip delta now minuteLabel s hc]
    exact h
  · rw [adjustRiskScore_of_lt ip delta now minuteLabel s hc]
    exact scoresPositive_set h ip (by have := scoresPositive_getD_nonneg h ip; linarith)

theorem scoresPositive_decayStep {m : JSMap ℚ} (h : ScoresPositive m) (entry : String × ℚ) :
    ScoresPositive (decayStep m entry) := by
  unfold DDos.decayStep
  by_cases hc : entry.2 - RISK_DECAY_AMOUNT ≤ 0
  · simp only [if_pos hc]
    exact scoresPositive_delete h entry.1
  · simp only [if_neg hc]
    exact scoresPositive_set h entry.1 (lt_of_not_ge hc)

theorem scoresPositive_foldl_decayStep (entries : List (String × ℚ)) :
    ∀ {m : JSMap ℚ}, ScoresPositive m → ScoresPositive (entries.foldl decayStep m) := by
  induction entries with
  | nil => intro m h; exact h
  | cons e rest ih => intro m h; exact ih (scoresPositive_decayStep h e)

theorem scoresPositive_apply {s : State} (h : ScoresPositive s.ipReputation) (e : Event)
    (he : e.PositiveDelta) : ScoresPositive (e.apply s).ipReputation := by
  cases e with
  | adjust ip delta now minuteLabel => exact scoresPositive_adjustRiskScore h ip he now minuteLabel
  | decay => exact scoresPositive_foldl_decayStep s.ipReputation h
  | honeypot req adjNow adjLabel now timestamp =>
    simp only [Event.apply, honeypotMiddleware]
    split
    · exact scoresPositive_adjustRiskScore h (clientIP req) (by norm_num) adjNow adjLabel
    · exact h
  | banCheck req now =>
    simp only [Event.apply, banCheckMiddleware]
    split
    · split
      · exact h
      · exact scoresPositive_delete h (clientIP req)
    · exact h
  | ban req now minuteLabel =>
    simp only [Event.apply, postBan]
    split
    · exact h
    · split
      · exact h
      · exact scoresPositive_set h _ (by norm_num)
  | unban req =>
    simp only [Event.apply, postUnban]
    split
    · exact h
    · split
      · exact h
      · exact scoresPositive_delete h _

theorem scoresPositive_runEvents (events : List Event) :
    ∀ {s : State}, ScoresPositive s.ipReputation → (∀ e ∈ events, e.PositiveDelta) →
      ScoresPositive (runEvents events s).ipReputation := by
  induction events with
  | nil => intro s h _; exact h
  | cons e rest ih =>
    intro s h hpos
    exact ih (scoresPositive_apply h e (hpos e (List.mem_cons_self _ _)))
      (fun x hx => hpos x (List.mem_cons_of_mem _ hx))

/-- C4: starting from the empty score map, after any sequence of
`adjustRiskScore` calls with positive deltas, decay ticks, honeypot hits, manual
bans, unbans and ban checks (which evict expired bans), every address present in
the score map has a score strictly greater than 0. -/
theorem score_positive_invariant (s : State) (hempty : s.ipReputation = [])
    (events : List Event) (hpos : ∀ e ∈ events, e.PositiveDelta) (ip : String) (score : ℚ)
    (hget : JSMap.get (runEvents events s).ipReputation ip = some score) : 0 < score := by
  have h0 : ScoresPositive s.ipReputation := by
    rw [hempty]; intro e he; cases he
  exact scoresPositive_runEvents events h0 hpos _
    (JSMap.mem_of_get_eq_some _ ip score hget)

theorem sampleEvents_get :
    JSMap.get (runEvents sampleEvents (initialState "2025-01-01T00:00")).ipReputation
      "10.0.0.1" = some 2 := by
  decide!

/-- Witness of C4: in the state after `sampleEvents` the address `10.0.0.1` has the
positive score 2. -/
theorem score_positive_invariant_witness :
    JSMap.get (runEvents sampleEvents (initialState "2025-01-01T00:00")).ipReputation
      "10.0.0.1" = some 2 ∧ (0 : ℚ) < 2 :=
  ⟨sampleEvents_get,
    score_positive_invariant (initialState "2025-01-01T00:00") rfl sampleEvents
      (by
        intro e he
        simp only [sampleEvents, List.mem_cons, List.mem_singleton, List.mem_nil_iff,
          or_false] at he
        rcases he with rfl | rfl | rfl | rfl | rfl | rfl <;>
          simp [Event.PositiveDelta])
      "10.0.0.1" 2 sampleEvents_get⟩

/-! ## The decay tick -/

theorem JSMap.delete_eq_self_of_not_mem {β : Type} (m : JSMap β) (key : String)
    (h : key ∉ JSMap.keys m) : JSMap.delete m key = m := by
  unfold JSMap.delete
  rw [List.filter_eq_self]
  intro e he
  have : e.1 ≠ key := fun heq => h (heq ▸ List.mem_map_of_mem Prod.fst he)
  simpa using this

theorem JSMap.delete_append {β : Type} (a b : JSMap β) (key : String) :
    JSMap.delete (a ++ b) key = JSMap.delete a key ++ JSMap.delete b key := by
  simp [JSMap.delete, List.filter_append]

theorem JSMap.set_append_of_not_mem {β : Type} (a b : JSMap β) (key : String) (val : β)
    (h : key ∉ JSMap.keys a) : JSMap.set (a ++ b) key val = a ++ JSMap.set b key val := by
  induction a with
  | nil => rfl
  | cons e rest ih =>
    obtain ⟨k, v⟩ := e
    simp only [JSMap.keys, List.map_cons, List.mem_cons, not_or] at h
    have hk : ¬ k = key := fun hk => h.1 hk.symm
    have ih' := ih h.2
    show JSMap.set ((k, v) :: (rest ++ b)) key val = (k, v) :: (rest ++ JSMap.set b key val)
    simp only [JSMap.set, if_neg hk]
    rw [ih']

theorem decayEntry_fst (entry result : String × ℚ) (h : decayEntry entry = some result) :
    result.1 = entry.1 := by
  unfold decayEntry at h
  cases hs : decayScore entry.2 with
  | none => simp [hs] at h
  | some v =>
    simp only [hs, Option.map_some', Option.some.injEq] at h
    rw [← h]

theorem keys_filterMap_decayEntry_sublist (m : JSMap ℚ) :
    (JSMap.keys (m.filterMap decayEntry)).Sublist (JSMap.keys m) := by
  induction m with
  | nil => simp [JSMap.keys]
  | cons e rest ih =>
    cases he : decayEntry e with
    | none =>
      simp only [List.filterMap_cons, he, JSMap.keys, List.map_cons]
      exact List.Sublist.cons _ ih
    | some r =>
      simp only [List.filterMap_cons, he, JSMap.keys, List.map_cons]
      rw [decayEntry_fst e r he]
      exact List.Sublist.cons₂ _ ih

/-- The loop of the decay callback, started on a map whose already visited part
is `visited` and whose part still to visit is `rest`. -/
theorem foldl_decayStep_append (rest : JSMap ℚ) :
    ∀ visited : JSMap ℚ, JSMap.WF (visited ++ rest) →
      rest.foldl decayStep (visited ++ rest) = visited ++ rest.filterMap decayEntry := by
  induction rest with
  | nil => intro visited _; simp
  | cons e rest ih =>
    intro visited hwf
    obtain ⟨k, v⟩ := e
    have hnd : (JSMap.keys visited ++ k :: JSMap.keys rest).Nodup := by
      simpa [JSMap.WF, JSMap.keys] using hwf
    have hkv : k ∉ JSMap.keys visited := fun hmem =>
      (List.nodup_append.mp hnd).2.2 hmem (List.mem_cons_self _ _) 
    have hkr : k ∉ JSMap.keys rest :=
      (List.nodup_cons.mp (List.nodup_append.mp hnd).2.1).1
    simp only [List.foldl_cons]
    by_cases hc : v - RISK_DECAY_AMOUNT ≤ 0
    · have hstep : decayStep (visited ++ (k, v) :: rest) (k, v) = visited ++ rest := by
        simp only [decayStep, if_pos hc]
        rw [JSMap.delete_append, JSMap.delete_eq_self_of_not_mem visited k hkv]
        have : JSMap.delete ((k, v) :: rest) k = rest := by
          have h1 : JSMap.delete ((k, v) :: rest) k = JSMap.delete rest k := by
            simp [JSMap.delete, List.filter_cons]
          rw [h1, JSMap.delete_eq_self_of_not_mem rest k hkr]
        rw [this]
      have hentry : decayEntry (k, v) = none := by
        simp [decayEntry, decayScore, hc]
      rw [hstep, List.filterMap_cons, hentry]
      apply ih visited
      have : (JSMap.keys visited ++ JSMap.keys rest).Nodup :=
        hnd.sublist (List.Sublist.append_left (List.sublist_cons_self _ _) _)
      simpa [JSMap.WF, JSMap.keys] using this
    · have hstep : decayStep (visited ++ (k, v) :: rest) (k, v) =
          (visited ++ [(k, v - RISK_DECAY_AMOUNT)]) ++ rest := by
        simp only [decayStep, if_neg hc]
        rw [JSMap.set_append_of_not_mem visited _ k _ hkv]
        simp [JSMap.set]
      have hentry : decayEntry (k, v) = some (k, v - RISK_DECAY_AMOUNT) := by
        simp [decayEntry, decayScore, hc]
      rw [hstep, List.filterMap_cons, hentry]
      rw [ih (visited ++ [(k, v - RISK_DECAY_AMOUNT)])]
      · simp
      · have : (JSMap.keys visited ++ k :: JSMap.keys rest).Nodup := hnd
        simpa [JSMap.WF, JSMap.keys] using this

theorem decayTick_ipReputation (s : State) (hwf : JSMap.WF s.ipReputation) :
    (decayTick s).ipReputation = s.ipReputation.filterMap decayEntry := by
  have h := foldl_decayStep_append s.ipReputation [] (by simpa using hwf)
  simpa [decayTick] using h

theorem decayTick_WF (s : State) (hwf : JSMap.WF s.ipReputation) :
    JSMap.WF (decayTick s).ipReputation := by
  rw [decayTick_ipReputation s hwf]
  exact List.Nodup.sublist (keys_filterMap_decayEntry_sublist _) hwf

theorem get_filterMap_decayEntry (m : JSMap ℚ) (hwf : JSMap.WF m) (key : String) :
    JSMap.get (m.filterMap decayEntry) key = (JSMap.get m key).bind decayScore := by
  induction m with
  | nil => rfl
  | cons e rest ih =>
    obtain ⟨k, v⟩ := e
    have hnd : (k :: JSMap.keys rest).Nodup := by
      simpa [JSMap.WF, JSMap.keys] using hwf
    have hkr : k ∉ JSMap.keys rest := (List.nodup_cons.mp hnd).1
    have hrest : JSMap.WF rest := (List.nodup_cons.mp hnd).2
    by_cases hk : k = key
    · subst hk
      cases hs : decayScore v with
      | none =>
        have hnot : k ∉ JSMap.keys (rest.filterMap decayEntry) := fun hmem =>
          hkr ((keys_filterMap_decayEntry_sublist rest).subset hmem)
        simp [List.filterMap_cons, decayEntry, hs, JSMap.get,
          JSMap.get_eq_none_of_not_mem_keys _ k hnot]
      | some w =>
        simp [List.filterMap_cons, decayEntry, hs, JSMap.get]
    · cases hs : decayScore v with
      | none =>
        simp [List.filterMap_cons, decayEntry, hs, JSMap.get, hk, ih hrest]
      | some w =>
        simp [List.filterMap_cons, decayEntry, hs, JSMap.get, hk, ih hrest]

theorem decayTick_get (s : State) (hwf : JSMap.WF s.ipReputation) (ip : String) :
    JSMap.get (decayTick s).ipReputation ip =
      (JSMap.get s.ipReputation ip).bind decayScore := by
  rw [decayTick_ipReputation s hwf]
  exact get_filterMap_decayEntry _ hwf ip

/-- C5: one decay tick maps the score map pointwise.  An address with stored score
`score` is absent afterwards if `score - 1 ≤ 0` and has score `score - 1`
otherwise; an address without a record stays absent; the ban map, both timelines
and the log sequence are unchanged. -/
theorem decayTick_pointwise (s : State) (hwf : JSMap.WF s.ipReputation) :
    (∀ (ip : String) (score : ℚ), JSMap.get s.ipReputation ip = some score →
      JSMap.get (decayTick s).ipReputation ip =
        if score - 1 ≤ 0 then none else some (score - 1)) ∧
    (∀ ip : String, JSMap.get s.ipReputation ip = none →
      JSMap.get (decayTick s).ipReputation ip = none) ∧
    (decayTick s).blockedIPs = s.blockedIPs ∧
    (decayTick s).requestTimeline = s.requestTimeline ∧
    (decayTick s).banTimeline = s.banTimeline ∧
    (decayTick s).requestLogs = s.requestLogs := by
  refine ⟨fun ip score h => ?_, fun ip h => ?_, rfl, rfl, rfl, rfl⟩
  · rw [decayTick_get s hwf ip, h]
    simp [decayScore, RISK_DECAY_AMOUNT]
  · rw [decayTick_get s hwf ip, h]
    rfl

theorem sampleState_WF : JSMap.WF sampleState.ipReputation := by
  decide

/-- Witness of C5 on `sampleState`: score 2 of `10.0.0.2` becomes 1. -/
theorem decayTick_pointwise_witness :
    JSMap.WF sampleState.ipReputation ∧
      JSMap.get (decayTick sampleState).ipReputation "10.0.0.2" = some 1 := by
  refine ⟨sampleState_WF, ?_⟩
  have h := (decayTick_pointwise sampleState sampleState_WF).1 "10.0.0.2" 2 (by decide!)
  rw [h]
  norm_num

/-- After `n` ticks a score that started at `score` is `score - n` as long as that
is positive, and the record is gone from then on. -/
theorem iterate_decayTick_get (s : State) (hwf : JSMap.WF s.ipReputation) (ip : String)
    (score : ℚ) (hget : JSMap.get s.ipReputation ip = some score) (hpos : 0 < score)
    (n : ℕ) :
    JSMap.WF (decayTick^[n] s).ipReputation ∧
      JSMap.get (decayTick^[n] s).ipReputation ip =
        if (n : ℚ) < score then some (score - n) else none := by
  induction n with
  | zero =>
    refine ⟨hwf, ?_⟩
    simp only [Function.iterate_zero, id_eq, hget, Nat.cast_zero, sub_zero, if_pos hpos]
  | succ n ih =>
    obtain ⟨hwfn, hn⟩ := ih
    rw [Function.iterate_succ_apply']
    refine ⟨decayTick_WF _ hwfn, ?_⟩
    rw [decayTick_get _ hwfn ip, hn]
    have hcast : ((n + 1 : ℕ) : ℚ) = (n : ℚ) + 1 := by push_cast; ring
    by_cases hlt : (n : ℚ) < score
    · rw [if_pos hlt]
      by_cases hlt' : (n : ℚ) + 1 < score
      · have hc : ¬ (score - n - 1 ≤ 0) := by
          intro hle; linarith
        rw [hcast, if_pos hlt']
        simp only [Option.some_bind, decayScore, RISK_DECAY_AMOUNT, if_neg hc]
        congr 1; ring
      · have hc : score - n - 1 ≤ 0 := by
          linarith [not_lt.mp hlt']
        rw [hcast, if_neg hlt']
        simp only [Option.some_bind, decayScore, RISK_DECAY_AMOUNT, if_pos hc]
    · have hlt' : ¬ ((n : ℚ) + 1 < score) := fun h => hlt (by linarith)
      rw [if_neg hlt, hcast, if_neg hlt']
      rfl

/-- C6: decay convergence.  With no further adjustments, an address whose stored
score is `score > 0` has score `score - n` after `n` decay ticks while
`n < ⌈score⌉`, and is absent from the score map after `⌈score⌉` ticks and after
every later tick. -/
theorem decay_convergence (s : State) (hwf : JSMap.WF s.ipReputation) (ip : String)
    (score : ℚ) (hget : JSMap.get s.ipReputation ip = some score) (hpos : 0 < score) :
    (∀ n : ℕ, n < ⌈score⌉₊ →
      JSMap.get (decayTick^[n] s).ipReputation ip = some (score - n)) ∧
    (∀ n : ℕ, ⌈score⌉₊ ≤ n →
      JSMap.get (decayTick^[n] s).ipReputation ip = none) := by
  constructor
  · intro n hn
    rw [(iterate_decayTick_get s hwf ip score hget hpos n).2, if_pos (Nat.lt_ceil.mp hn)]
  · intro n hn
    rw [(iterate_decayTick_get s hwf ip score hget hpos n).2,
      if_neg (not_lt.mpr (Nat.ceil_le.mp hn))]

/-- Witness of C6 on `sampleState`: score 2 of `10.0.0.2` is 1 after one tick and
the record is gone after two ticks. -/
theorem decay_convergence_witness :
    JSMap.get (decayTick^[1] sampleState).ipReputation "10.0.0.2" = some 1 ∧
      JSMap.get (decayTick^[2] sampleState).ipReputation "10.0.0.2" = none := by
  have h := decay_convergence sampleState sampleState_WF "10.0.0.2" 2 (by decide!)
    (by norm_num)
  have hceil : ⌈(2 : ℚ)⌉₊ = 2 := by
    have : ((2 : ℕ) : ℚ) = (2 : ℚ) := by norm_num
    rw [← this, Nat.ceil_natCast]
  refine ⟨?_, ?_⟩
  · have h1 := h.1 1 (by rw [hceil]; norm_num)
    rw [h1]
    norm_num
  · exact h.2 2 (by rw [hceil])

/-! ## The honeypot middleware -/

theorem getLast_pushLog (logs : List LogEntry) (entry : LogEntry) :
    (pushLog logs entry).getLast? = some entry := by
  unfold pushLog
  cases logs with
  | nil => simp
  | cons a rest =>
    have htail : ((a :: rest) ++ [entry]).tail = rest ++ [entry] := rfl
    by_cases h : ((a :: rest) ++ [entry]).length > 10000
    · simp only [if_pos h, htail]
      exact List.getLast?_concat _
    · simp only [if_neg h]
      exact List.getLast?_concat _

theorem honeypotMiddleware_of_hit (req : Request) (adjNow : ℚ) (adjLabel : String) (now : ℚ)
    (timestamp : String) (s : State) (hpath : toLowerCase req.path ∈ honeypots)
    (hscore : ∀ v : ℚ, JSMap.get s.ipReputation (clientIP req) = some v → 0 ≤ v) :
    honeypotMiddleware req adjNow adjLabel now timestamp s =
      ({ s with
         blockedIPs := JSMap.set
           (JSMap.set s.blockedIPs (clientIP req)
             (adjNow + min (300000 * ((JSMap.get s.ipReputation (clientIP req)).getD 0 + 5))
               1800000))
           (clientIP req) (now + 1440 * 60 * 1000)
         banTimeline := incrementTimeline s.banTimeline adjLabel
         requestLogs := pushLog s.requestLogs
           { timestamp := timestamp, ip := clientIP req, method := req.method, path := req.url,
             location := "🪤 Honeypot", isp := "Suspicious" } }, Outcome.respond 403) := by
  have hge : 5 ≤ (JSMap.get s.ipReputation (clientIP req)).getD 0 + 5 := by
    cases hg : JSMap.get s.ipReputation (clientIP req) with
    | none => simp
    | some v => simpa using hscore v hg
  simp only [honeypotMiddleware, if_pos hpath,
    adjustRiskScore_of_ge (clientIP req) 5 adjNow adjLabel s hge]

/-- C7: a request whose lowercased path is one of the five decoy paths, from an
address whose stored score is absent or non-negative.  The honeypot stage leaves
the address with a ban record expiring at exactly `now + 24 h`, adds exactly 1 to
the ban-timeline bucket of the current minute and leaves the other buckets and the
score map unchanged, appends a log entry whose location is the honeypot marker,
and answers 403 so that no later stage of the pipeline runs. -/
theorem honeypot_hit (req : Request) (adjNow : ℚ) (adjLabel : String) (now : ℚ)
    (timestamp : String) (s : State) (hpath : toLowerCase req.path ∈ honeypots)
    (hscore : ∀ v : ℚ, JSMap.get s.ipReputation (clientIP req) = some v → 0 ≤ v) :
    JSMap.get (honeypotMiddleware req adjNow adjLabel now timestamp s).1.blockedIPs
        (clientIP req) = some (now + 86400000) ∧
    JSMap.get (honeypotMiddleware req adjNow adjLabel now timestamp s).1.banTimeline
        adjLabel = some ((JSMap.get s.banTimeline adjLabel).getD 0 + 1) ∧
    (∀ label : String, label ≠ adjLabel →
      JSMap.get (honeypotMiddleware req adjNow adjLabel now timestamp s).1.banTimeline
        label = JSMap.get s.banTimeline label) ∧
    (honeypotMiddleware req adjNow adjLabel now timestamp s).1.ipReputation =
      s.ipReputation ∧
    (∃ entry : LogEntry,
      (honeypotMiddleware req adjNow adjLabel now timestamp s).1.requestLogs =
        pushLog s.requestLogs entry ∧
      (honeypotMiddleware req adjNow adjLabel now timestamp s).1.requestLogs.getLast? =
        some entry ∧
      entry.location = "🪤 Honeypot" ∧ entry.ip = clientIP req) ∧
    (honeypotMiddleware req adjNow adjLabel now timestamp s).2 = Outcome.respond 403 ∧
    ∀ rest : State → State × Outcome,
      andThen (honeypotMiddleware req adjNow adjLabel now timestamp) rest s =
        honeypotMiddleware req adjNow adjLabel now timestamp s := by
  have h := honeypotMiddleware_of_hit req adjNow adjLabel now timestamp s hpath hscore
  refine ⟨?_, ?_, ?_, ?_, ?_, ?_, ?_⟩
  · rw [h]
    simp only [JSMap.get_set_self]
    norm_num
  · rw [h]
    exact JSMap.get_set_self _ _ _
  · intro label hne
    rw [h]
    exact JSMap.get_set_other _ _ _ _ hne
  · rw [h]
  · refine ⟨{ timestamp := timestamp, ip := clientIP req, method := req.method,
               path := req.url, location := "🪤 Honeypot", isp := "Suspicious" },
      ?_, ?_, rfl, rfl⟩
    · rw [h]
    · rw [h]
      exact getLast_pushLog _ _
  · rw [h]
  · intro rest
    simp only [andThen, h]

theorem sampleHoneypotRequest_path : toLowerCase sampleHoneypotRequest.path ∈ honeypots := by
  decide

/-- Witness of C7: `sampleHoneypotRequest` hits `/wp-login.php` from `10.0.0.1`,
whose score in `sampleState` is 4. -/
theorem honeypot_hit_witness :
    JSMap.get (honeypotMiddleware sampleHoneypotRequest 1000 "2025-01-01T00:00" 1001
        "2025-01-01T00:00:01.001Z" sampleState).1.blockedIPs "10.0.0.1" = some 86401001 ∧
    JSMap.get (honeypotMiddleware sampleHoneypotRequest 1000 "2025-01-01T00:00" 1001
        "2025-01-01T00:00:01.001Z" sampleState).1.banTimeline "2025-01-01T00:00" = some 2 ∧
    (honeypotMiddleware sampleHoneypotRequest 1000 "2025-01-01T00:00" 1001
        "2025-01-01T00:00:01.001Z" sampleState).2 = Outcome.respond 403 := by
  have h := honeypot_hit sampleHoneypotRequest 1000 "2025-01-01T00:00" 1001
    "2025-01-01T00:00:01.001Z" sampleState sampleHoneypotRequest_path
    (by
      intro v hv
      have h4 : JSMap.get sampleState.ipReputation (clientIP sampleHoneypotRequest) =
          some 4 := by decide!
      rw [h4] at hv
      simp only [Option.some.injEq] at hv
      rw [← hv]; norm_num)
  have hip : clientIP sampleHoneypotRequest = "10.0.0.1" := by decide
  rw [hip] at h
  refine ⟨?_, ?_, h.2.2.2.2.2.1⟩
  · rw [h.1]; norm_num
  · rw [h.2.1]; decide

/-! ## The ban check -/

/-- C8: the ban check.  (a) A ban record with `now < expiresAt` denies the request
with 403 and leaves the state as it was.  (b) A ban record with `expiresAt ≤ now`
is removed together with the reputation record of the address, the records of
other addresses are kept, and the request continues.  (c) Without a ban record
the request continues and the state is as it was. -/
theorem banCheck_transition (req : Request) (now : ℚ) (s : State) :
    (∀ expiresAt : ℚ, JSMap.get s.blockedIPs (clientIP req) = some expiresAt →
      now < expiresAt → banCheckMiddleware req now s = (s, Outcome.respond 403)) ∧
    (∀ expiresAt : ℚ, JSMap.get s.blockedIPs (clientIP req) = some expiresAt →
      expiresAt ≤ now →
        (banCheckMiddleware req now s).2 = Outcome.next ∧
        JSMap.get (banCheckMiddleware req now s).1.blockedIPs (clientIP req) = none ∧
        JSMap.get (banCheckMiddleware req now s).1.ipReputation (clientIP req) = none ∧
        ∀ other : String, other ≠ clientIP req →
          JSMap.get (banCheckMiddleware req now s).1.blockedIPs other =
            JSMap.get s.blockedIPs other ∧
          JSMap.get (banCheckMiddleware req now s).1.ipReputation other =
            JSMap.get s.ipReputation other) ∧
    (JSMap.get s.blockedIPs (clientIP req) = none →
      banCheckMiddleware req now s = (s, Outcome.next)) := by
  refine ⟨fun expiresAt hget hlt => ?_, fun expiresAt hget hle => ?_, fun hget => ?_⟩
  · simp only [banCheckMiddleware, hget, if_pos hlt]
  · have hnot : ¬ now < expiresAt := not_lt.mpr hle
    simp only [banCheckMiddleware, hget, if_neg hnot]
    exact ⟨trivial, JSMap.get_delete_self _ _, JSMap.get_delete_self _ _,
      fun other hne => ⟨JSMap.get_delete_other _ _ _ hne, JSMap.get_delete_other _ _ _ hne⟩⟩
  · simp only [banCheckMiddleware, hget]

/-- Witness of C8 on `sampleState`, where `10.0.0.3` is banned until 86400000: a
request at time 1000 is denied, a request at time 86400000 evicts the ban. -/
theorem banCheck_transition_witness :
    banCheckMiddleware sampleBannedRequest 1000 sampleState =
        (sampleState, Outcome.respond 403) ∧
      (banCheckMiddleware sampleBannedRequest 86400000 sampleState).2 = Outcome.next ∧
      JSMap.get (banCheckMiddleware sampleBannedRequest 86400000 sampleState).1.blockedIPs
        "10.0.0.3" = none := by
  have h := banCheck_transition sampleBannedRequest
  have hget : JSMap.get sampleState.blockedIPs (clientIP sampleBannedRequest) =
      some 86400000 := by decide!
  have h2 := (h 86400000 sampleState).2.1 86400000 hget (le_refl _)
  exact ⟨(h 1000 sampleState).1 86400000 hget (by norm_num), h2.1, h2.2.1⟩

/-! ## Manual ban and unban -/

theorem postBan_other_addresses (req : Request) (ip : String) (now : ℚ) (minuteLabel : String)
    (s : State) (hbody : req.bodyIp = some ip) (hne : ip ≠ "") :
    ∀ other : String, other ≠ ip →
      JSMap.get (postBan req now minuteLabel s).1.blockedIPs other =
        JSMap.get s.blockedIPs other ∧
      JSMap.get (postBan req now minuteLabel s).1.ipReputation other =
        JSMap.get s.ipReputation other := by
  intro other hother
  simp only [postBan, hbody, if_neg hne]
  exact ⟨JSMap.get_set_other _ _ _ _ hother, JSMap.get_set_other _ _ _ _ hother⟩

/-- C9: for every state and every non-empty `ip`, `POST /ban` sets the ban expiry
of `ip` to exactly `now + 10 min` whatever ban record existed before, sets the
score of `ip` to exactly 5 whatever it was before, and leaves the ban record and
the score of every other address unchanged. -/
theorem manual_ban (req : Request) (ip : String) (now : ℚ) (minuteLabel : String)
    (s : State) (hbody : req.bodyIp = some ip) (hne : ip ≠ "") :
    JSMap.get (postBan req now minuteLabel s).1.blockedIPs ip = some (now + 600000) ∧
    JSMap.get (postBan req now minuteLabel s).1.ipReputation ip = some 5 ∧
    (∀ other : String, other ≠ ip →
      JSMap.get (postBan req now minuteLabel s).1.blockedIPs other =
        JSMap.get s.blockedIPs other ∧
      JSMap.get (postBan req now minuteLabel s).1.ipReputation other =
        JSMap.get s.ipReputation other) ∧
    (postBan req now minuteLabel s).2 = Outcome.respond 200 := by
  simp only [postBan, hbody, if_neg hne]
  refine ⟨?_, JSMap.get_set_self _ _ _, fun other hother =>
    ⟨JSMap.get_set_other _ _ _ _ hother, JSMap.get_set_other _ _ _ _ hother⟩, trivial⟩
  rw [JSMap.get_set_self]
  norm_num

/-- Witness of C9 on `sampleState`: the 24-hour ban of `10.0.0.3` (expiry 86400000)
is replaced by the expiry 601000 of a manual ban at time 1000. -/
theorem manual_ban_witness :
    JSMap.get sampleState.blockedIPs "10.0.0.3" = some 86400000 ∧
      JSMap.get (postBan sampleBanRequest 1000 "2025-01-01T00:00" sampleState).1.blockedIPs
        "10.0.0.3" = some 601000 ∧
      JSMap.get (postBan sampleBanRequest 1000 "2025-01-01T00:00" sampleState).1.ipReputation
        "10.0.0.3" = some 5 := by
  have h := manual_ban sampleBanRequest "10.0.0.3" 1000 "2025-01-01T00:00" sampleState rfl
    (by decide)
  refine ⟨by decide!, ?_, h.2.1⟩
  rw [h.1]; norm_num

theorem postUnban_of_ip (req : Request) (ip : String) (s : State)
    (hbody : req.bodyIp = some ip) (hne : ip ≠ "") :
    postUnban req s =
      ({ s with
         blockedIPs := JSMap.delete s.blockedIPs ip
         ipReputation := JSMap.delete s.ipReputation ip }, Outcome.respond 200) := by
  simp only [postUnban, hbody, if_neg hne]

/-- C10: after a manual ban of `B` followed by an unban of `B`, `B` is absent from
the ban map and from the score map, the records of every other address are as
before the ban, the ban check admits a request from `B` at any time without
changing the state, and a second unban changes nothing. -/
theorem unban_after_ban (banReq unbanReq req : Request) (B : String) (now : ℚ)
    (minuteLabel : String) (s : State) (hB : B ≠ "") (hban : banReq.bodyIp = some B)
    (hunban : unbanReq.bodyIp = some B) (hreq : clientIP req = B) :
    JSMap.get (postUnban unbanReq (postBan banReq now minuteLabel s).1).1.blockedIPs B =
      none ∧
    JSMap.get (postUnban unbanReq (postBan banReq now minuteLabel s).1).1.ipReputation B =
      none ∧
    (∀ other : String, other ≠ B →
      JSMap.get (postUnban unbanReq (postBan banReq now minuteLabel s).1).1.blockedIPs
        other = JSMap.get s.blockedIPs other ∧
      JSMap.get (postUnban unbanReq (postBan banReq now minuteLabel s).1).1.ipReputation
        other = JSMap.get s.ipReputation other) ∧
    (∀ later : ℚ,
      banCheckMiddleware req later (postUnban unbanReq (postBan banReq now minuteLabel s).1).1 =
        ((postUnban unbanReq (postBan banReq now minuteLabel s).1).1, Outcome.next)) ∧
    (postUnban unbanReq (postUnban unbanReq (postBan banReq now minuteLabel s).1).1).1 =
      (postUnban unbanReq (postBan banReq now minuteLabel s).1).1 := by
  have hb : JSMap.get
      (postUnban unbanReq (postBan banReq now minuteLabel s).1).1.blockedIPs B = none := by
    rw [postUnban_of_ip unbanReq B _ hunban hB]
    exact JSMap.get_delete_self _ _
  refine ⟨hb, ?_, ?_, ?_, ?_⟩
  · rw [postUnban_of_ip unbanReq B _ hunban hB]
    exact JSMap.get_delete_self _ _
  · intro other hother
    rw [postUnban_of_ip unbanReq B _ hunban hB]
    have h := (postBan_other_addresses banReq B now minuteLabel s hban hB) other hother
    exact ⟨(JSMap.get_delete_other _ _ _ hother).trans h.1,
      (JSMap.get_delete_other _ _ _ hother).trans h.2⟩
  · intro later
    have hb' := hb
    rw [← hreq] at hb'
    simp only [banCheckMiddleware, hb']
  · rw [postUnban_of_ip unbanReq B _ hunban hB, postUnban_of_ip unbanReq B _ hunban hB]
    simp only [JSMap.delete_delete]

/-- Witness of C10 on `sampleState` with `B = 10.0.0.3`. -/
theorem unban_after_ban_witness :
    JSMap.get (postUnban sampleUnbanRequest
        (postBan sampleBanRequest 1000 "2025-01-01T00:00" sampleState).1).1.blockedIPs
        "10.0.0.3" = none ∧
      banCheckMiddleware sampleBannedRequest 2000 (postUnban sampleUnbanRequest
        (postBan sampleBanRequest 1000 "2025-01-01T00:00" sampleState).1).1 =
        ((postUnban sampleUnbanRequest
          (postBan sampleBanRequest 1000 "2025-01-01T00:00" sampleState).1).1,
          Outcome.next) := by
  have h := unban_after_ban sampleBanRequest sampleUnbanRequest sampleBannedRequest
    "10.0.0.3" 1000 "2025-01-01T00:00" sampleState (by decide) rfl rfl rfl
  exact ⟨h.1, h.2.2.2.1 2000⟩

/-! ## The leaderboard -/

theorem filter_score_riskySortedIPs (rep : JSMap ℚ) (score : ℚ) :
    (riskySortedIPs rep).filter (fun e => decide (e.2 = score)) =
      rep.filter (fun e => decide (e.2 = score)) := by
  have hpair : (rep.filter (fun e => decide (e.2 = score))).Pairwise scoreGE := by
    rw [List.pairwise_iff_forall_sublist]
    intro a b hab
    have ha : a ∈ rep.filter (fun e => decide (e.2 = score)) := hab.subset (by simp)
    have hb : b ∈ rep.filter (fun e => decide (e.2 = score)) := hab.subset (by simp)
    have ha2 : a.2 = score := by simpa using (List.mem_filter.mp ha).2
    have hb2 : b.2 = score := by simpa using (List.mem_filter.mp hb).2
    show b.2 ≤ a.2
    rw [ha2, hb2]
  have hsub : List.Sublist (rep.filter (fun e => decide (e.2 = score))) (riskySortedIPs rep) :=
    List.sublist_insertionSort hpair (List.filter_sublist rep)
  have hsub2 : List.Sublist (rep.filter (fun e => decide (e.2 = score)))
      ((riskySortedIPs rep).filter (fun e => decide (e.2 = score))) := by
    have h := hsub.filter (fun e => decide (e.2 = score))
    simpa [List.filter_filter] using h
  have hlen : ((riskySortedIPs rep).filter (fun e => decide (e.2 = score))).length =
      (rep.filter (fun e => decide (e.2 = score))).length :=
    ((List.perm_insertionSort scoreGE rep).filter _).length_eq
  exact (hsub2.eq_of_length hlen.symm).symm

theorem isLeaderboard_take (rep : JSMap ℚ) (N : ℕ) :
    IsLeaderboard rep N ((riskySortedIPs rep).take N) := by
  refine ⟨?_, ?_, ?_, ?_, ?_⟩
  · rw [List.length_take, riskySortedIPs, List.length_insertionSort]
  · intro e he
    exact (List.mem_insertionSort scoreGE).mp (List.mem_of_mem_take he)
  · exact (List.sorted_insertionSort scoreGE rep).sublist (List.take_sublist N _)
  · intro a ha b hb hnot
    have hb' : b ∈ riskySortedIPs rep := (List.mem_insertionSort scoreGE).mpr hb
    rw [← List.take_append_drop N (riskySortedIPs rep), List.mem_append] at hb'
    rcases hb' with hb' | hb'
    · exact absurd hb' hnot
    · exact (List.sorted_insertionSort scoreGE rep).rel_of_mem_take_of_mem_drop ha hb'
  · intro score
    rw [← filter_score_riskySortedIPs rep score]
    exact (List.take_prefix N (riskySortedIPs rep)).filter _

theorem getRiskyIPs_of_limit (parseInt : String → Option ℤ) (s : State) (N : ℕ)
    (text : String) (htext : text ≠ "") (hparse : parseInt text = some (N : ℤ)) :
    getRiskyIPs parseInt (some text) s = (riskySortedIPs s.ipReputation).take N := by
  simp [getRiskyIPs, htext, hparse, sliceFromStart]

theorem getRiskyIPs_of_none (parseInt : String → Option ℤ) (s : State) :
    getRiskyIPs parseInt none s = (riskySortedIPs s.ipReputation).take 10 := by
  simp [getRiskyIPs, sliceFromStart]

/-- C11: for every score map and every non-negative integer `N`, written in the
query as a text that `parseInt` reads as `N`, `GET /risky-ips?limit=N` returns
`min(N, number of records)` rows, all of them records of the score map, sorted by
score in non-increasing order, no omitted record scoring higher than a returned
one, rows of equal score in insertion order; without a limit parameter `N` is 10;
and the scores `{X: 3, Y: 7, Z: 1}` with `limit=2` give `[Y, X]`. -/
theorem leaderboard (parseInt : String → Option ℤ) (s : State) (N : ℕ) (text : String)
    (htext : text ≠ "") (hparse : parseInt text = some (N : ℤ)) :
    IsLeaderboard s.ipReputation N (getRiskyIPs parseInt (some text) s) ∧
    IsLeaderboard s.ipReputation 10 (getRiskyIPs parseInt none s) ∧
    (parseInt "2" = some 2 →
      getRiskyIPs parseInt (some "2") xyzState = [("Y", 7), ("X", 3)]) := by
  refine ⟨?_, ?_, fun h2 => ?_⟩
  · rw [getRiskyIPs_of_limit parseInt s N text htext hparse]
    exact isLeaderboard_take _ _
  · rw [getRiskyIPs_of_none]
    exact isLeaderboard_take _ _
  · rw [getRiskyIPs_of_limit parseInt xyzState 2 "2" (by decide) h2]
    decide!

/-- Witness of C11: `limit=2` on the scores `{X: 3, Y: 7, Z: 1}`. -/
theorem leaderboard_witness :
    getRiskyIPs parseDecimal (some "2") xyzState = [("Y", 7), ("X", 3)] ∧
      IsLeaderboard xyzState.ipReputation 2 (getRiskyIPs parseDecimal (some "2") xyzState) :=
  have h := leaderboard parseDecimal xyzState 2 "2" (by decide) (by decide)
  ⟨h.2.2 (by decide), h.1⟩

/-! ## The bounded log -/

theorem pushLog_of_lt (logs : List LogEntry) (entry : LogEntry) (h : logs.length < 10000) :
    pushLog logs entry = logs ++ [entry] := by
  have hnot : ¬ (logs ++ [entry]).length > 10000 := by
    simp only [List.length_append, List.length_singleton]; omega
  simp only [pushLog, if_neg hnot]

theorem pushLog_of_full (logs : List LogEntry) (entry : LogEntry) (h : logs.length = 10000) :
    pushLog logs entry = logs.tail ++ [entry] := by
  have hover : (logs ++ [entry]).length > 10000 := by
    simp only [List.length_append, List.length_singleton]; omega
  simp only [pushLog, if_pos hover]
  cases logs with
  | nil => simp at h
  | cons a rest => rfl

theorem pushLog_length_le (logs : List LogEntry) (entry : LogEntry)
    (h : logs.length ≤ 10000) : (pushLog logs entry).length ≤ 10000 := by
  rcases Nat.lt_or_ge logs.length 10000 with hlt | hge
  · rw [pushLog_of_lt logs entry hlt]
    simp only [List.length_append, List.length_singleton]; omega
  · have heq : logs.length = 10000 := Nat.le_antisymm h hge
    rw [pushLog_of_full logs entry heq]
    simp only [List.length_append, List.length_singleton, List.length_tail]; omega

theorem adjustRiskScore_requestLogs (ip : String) (delta now : ℚ) (minuteLabel : String)
    (s : State) : (adjustRiskScore ip delta now minuteLabel s).requestLogs = s.requestLogs := by
  rcases le_or_lt 5 ((JSMap.get s.ipReputation ip).getD 0 + delta) with h | h
  · rw [adjustRiskScore_of_ge ip delta now minuteLabel s h]
  · rw [adjustRiskScore_of_lt ip delta now minuteLabel s h]

theorem event_apply_requestLogs (e : Event) (s : State) :
    (e.apply s).requestLogs = s.requestLogs ∨
      ∃ entry : LogEntry, (e.apply s).requestLogs = pushLog s.requestLogs entry := by
  cases e with
  | adjust ip delta now minuteLabel =>
    exact Or.inl (adjustRiskScore_requestLogs ip delta now minuteLabel s)
  | decay => exact Or.inl rfl
  | honeypot req adjNow adjLabel now timestamp =>
    simp only [Event.apply, honeypotMiddleware]
    split
    · refine Or.inr ⟨{ timestamp := timestamp, ip := clientIP req, method := req.method,
                        path := req.url, location := "🪤 Honeypot", isp := "Suspicious" }, ?_⟩
      simp only [adjustRiskScore_requestLogs]
    · exact Or.inl rfl
  | banCheck req now =>
    simp only [Event.apply, banCheckMiddleware]
    split
    · split
      · exact Or.inl rfl
      · exact Or.inl rfl
    · exact Or.inl rfl
  | ban req now minuteLabel =>
    simp only [Event.apply, postBan]
    split
    · exact Or.inl rfl
    · split
      · exact Or.inl rfl
      · exact Or.inl rfl
  | unban req =>
    simp only [Event.apply, postUnban]
    split
    · exact Or.inl rfl
    · split
      · exact Or.inl rfl
      · exact Or.inl rfl

theorem serverEvent_apply_length_le (e : ServerEvent) (s : State)
    (h : s.requestLogs.length ≤ 10000) : (e.apply s).requestLogs.length ≤ 10000 := by
  cases e with
  | engine e =>
    rcases event_apply_requestLogs e s with heq | ⟨entry, heq⟩
    · simp only [ServerEvent.apply, heq]; exact h
    · simp only [ServerEvent.apply, heq]; exact pushLog_length_le _ _ h
  | logging req ipInfo timestamp minuteLabel =>
    simp only [ServerEvent.apply, loggingMiddleware]
    split
    · exact h
    · exact pushLog_length_le _ _ h
  | clearLogs =>
    simp [ServerEvent.apply, postClearLogs]

theorem runServerEvents_length_le (events : List ServerEvent) :
    ∀ s : State, s.requestLogs.length ≤ 10000 →
      (runServerEvents events s).requestLogs.length ≤ 10000 := by
  induction events with
  | nil => intro s h; exact h
  | cons e rest ih =>
    intro s h
    exact ih (e.apply s) (serverEvent_apply_length_le e s h)

/-- C12: in every state reached from start-up by any sequence of server events
the log holds at most 10000 entries; appending to a log of fewer than 10000
entries puts the entry at the end and removes nothing; appending to a log of
exactly 10000 entries gives the previous entries 2..10000 in their order followed
by the new entry. -/
theorem log_bound (startLabel : String) (events : List ServerEvent) :
    (runServerEvents events (initialState startLabel)).requestLogs.length ≤ 10000 ∧
    (∀ (logs : List LogEntry) (entry : LogEntry), logs.length < 10000 →
      pushLog logs entry = logs ++ [entry]) ∧
    (∀ (logs : List LogEntry) (entry : LogEntry), logs.length = 10000 →
      pushLog logs entry = logs.tail ++ [entry]) :=
  ⟨runServerEvents_length_le events (initialState startLabel) (by simp [initialState]),
    pushLog_of_lt, pushLog_of_full⟩

/-- Witness of C12: a log of 10000 entries loses its oldest entry, a log of one
entry loses none. -/
theorem log_bound_witness :
    pushLog [sampleLogEntry] newerLogEntry = [sampleLogEntry, newerLogEntry] ∧
      pushLog (List.replicate 10000 sampleLogEntry) newerLogEntry =
        List.replicate 9999 sampleLogEntry ++ [newerLogEntry] := by
  have h := log_bound "2025-01-01T00:00" []
  refine ⟨h.2.1 [sampleLogEntry] newerLogEntry (by decide), ?_⟩
  rw [h.2.2 (List.replicate 10000 sampleLogEntry) newerLogEntry (List.length_replicate _ _)]
  rw [show (10000 : ℕ) = 9999 + 1 from rfl, List.replicate_succ, List.tail_cons]

/-! ## The rate-limit handler -/

/-- C13 fails as stated: in `sampleState` the address `10.0.0.1` has score 4; after
the quota-exceeded handler has run for it the request is denied with 429 but the
stored score is still 4, not 5. -/
theorem rateLimit_penalty_counterexample :
    (rateLimitHandler sampleLoginRequest 1000 "2025-01-01T00:00" sampleState).2 =
        Outcome.respond 429 ∧
      (JSMap.get (rateLimitHandler sampleLoginRequest 1000 "2025-01-01T00:00"
          sampleState).1.ipReputation (clientIP sampleLoginRequest)).getD 0 ≠
        (JSMap.get sampleState.ipReputation (clientIP sampleLoginRequest)).getD 0 + 1 := by
  decide!

/-- C13, amended: when the quota-exceeded handler of a rate limiter runs for the
address `A`, the request is denied with 429.  If the previous score of `A` (0 when
absent) plus 1 is below 5, the score of `A` afterwards is the previous score
plus 1 and the ban map is unchanged.  If it is 5 or more, the score map is
unchanged and `A` gets a ban record expiring at
`now + min(300000 * (previous + 1), 1800000)`. -/
theorem rateLimit_penalty (req : Request) (now : ℚ) (minuteLabel : String) (s : State) :
    (rateLimitHandler req now minuteLabel s).2 = Outcome.respond 429 ∧
    ((JSMap.get s.ipReputation (clientIP req)).getD 0 + 1 < 5 →
      JSMap.get (rateLimitHandler req now minuteLabel s).1.ipReputation (clientIP req) =
          some ((JSMap.get s.ipReputation (clientIP req)).getD 0 + 1) ∧
        (rateLimitHandler req now minuteLabel s).1.blockedIPs = s.blockedIPs) ∧
    (5 ≤ (JSMap.get s.ipReputation (clientIP req)).getD 0 + 1 →
      (rateLimitHandler req now minuteLabel s).1.ipReputation = s.ipReputation ∧
        JSMap.get (rateLimitHandler req now minuteLabel s).1.blockedIPs (clientIP req) =
          some (now + min (300000 * ((JSMap.get s.ipReputation (clientIP req)).getD 0 + 1))
            1800000)) := by
  refine ⟨rfl, fun h => ?_, fun h => ?_⟩
  · simp only [rateLimitHandler, adjustRiskScore_of_lt (clientIP req) 1 now minuteLabel s h]
    exact ⟨JSMap.get_set_self _ _ _, trivial⟩
  · simp only [rateLimitHandler, adjustRiskScore_of_ge (clientIP req) 1 now minuteLabel s h]
    exact ⟨trivial, JSMap.get_set_self _ _ _⟩

/-- Witness of C13, amended: `10.0.0.2` has score 2 in `sampleState` and score 3
after the handler; `10.0.0.1` has score 4 and is banned until 1501000. -/
theorem rateLimit_penalty_witness :
    JSMap.get (rateLimitHandler sampleLoginRequest 1000 "2025-01-01T00:00"
        sampleState).1.blockedIPs "10.0.0.1" = some 1501000 ∧
      (rateLimitHandler sampleLoginRequest 1000 "2025-01-01T00:00"
        sampleState).1.ipReputation = sampleState.ipReputation := by
  have h := (rateLimit_penalty sampleLoginRequest 1000 "2025-01-01T00:00" sampleState).2.2
    (by decide!)
  have hip : clientIP sampleLoginRequest = "10.0.0.1" := by decide
  rw [hip] at h
  refine ⟨?_, h.1⟩
  rw [h.2]
  have hget : JSMap.get sampleState.ipReputation "10.0.0.1" = some 4 := by decide!
  rw [hget]
  norm_num

/-! ## Start-up -/

/-- C14: what the module-level code of `server.js` leaves behind.  The score map,
the ban map, the request timeline and the log are empty, but the ban timeline
holds the bucket of the start-up minute with count 1. -/
theorem initialState_banTimeline (startLabel : String) :
    (initialState startLabel).ipReputation = [] ∧
    (initialState startLabel).blockedIPs = [] ∧
    (initialState startLabel).requestTimeline = [] ∧
    (initialState startLabel).requestLogs = [] ∧
    (initialState startLabel).banTimeline = [(startLabel, 1)] ∧
    JSMap.get (initialState startLabel).banTimeline startLabel = some 1 := by
  refine ⟨rfl, rfl, rfl, rfl, rfl, ?_⟩
  simp [initialState, incrementTimeline, JSMap.get, JSMap.set]

/-! ## The request pipeline -/

theorem andThen_of_passes (first second : State → State × Outcome) (s : State)
    (hsecond : ∀ s1 : State, second s1 = (s1, Outcome.next)) :
    andThen first second s = first s := by
  unfold andThen
  cases h : first s with
  | mk s1 outcome =>
    cases outcome with
    | next => simp only [hsecond]
    | respond status => rfl

theorem andThen_of_next (first second : State → State × Outcome) (s s1 : State)
    (hfirst : first s = (s1, Outcome.next)) : andThen first second s = second s1 := by
  simp only [andThen, hfirst]

theorem observability_path_facts (path : String)
    (hpath : path ∈ ["/risky-ips", "/risk-distribution", "/logs", "/dashboard"]) :
    skipsLogging path = true ∧ toLowerCase path ∉ honeypots ∧
      mountMatches "/login" path = false ∧ mountMatches "/data" path = false := by
  simp only [List.mem_cons, List.mem_singleton, List.mem_nil_iff, or_false] at hpath
  rcases hpath with rfl | rfl | rfl | rfl <;> decide

/-- C15 fails as stated: a request for `/dashboard` from `10.0.0.3`, which has a
live ban in `sampleState`, is answered 403 by the ban check and does not reach its
handler. -/
theorem observability_skip_counterexample :
    sampleDashboardRequest.path = "/dashboard" ∧
      JSMap.get sampleState.blockedIPs (clientIP sampleDashboardRequest) = some 86400000 ∧
      sampleEnv.banCheckNow < 86400000 ∧
      (mitigationGate sampleDashboardRequest sampleEnv sampleState).2 =
        Outcome.respond 403 ∧
      (mitigationGate sampleDashboardRequest sampleEnv sampleState).2 ≠ Outcome.next := by
  decide!

/-- C15, amended: for every request whose path is `/risky-ips`,
`/risk-distribution`, `/logs` or `/dashboard`, the logging step is skipped, the
honeypot check does not match and no rate limiter applies, so that no log entry,
timeline increment or request-counter increment results; the ban check does
apply: the pipeline does exactly what the ban check does, and a request whose
address has a live ban record is answered 403 instead of reaching its handler. -/
theorem observability_paths (req : Request) (env : RequestEnv) (s : State)
    (hpath : req.path ∈ ["/risky-ips", "/risk-distribution", "/logs", "/dashboard"]) :
    loggingMiddleware req env.ipInfo env.logTimestamp env.logLabel s = (s, Outcome.next) ∧
    honeypotMiddleware req env.adjNow env.adjLabel env.honeypotNow env.honeypotTimestamp s =
      (s, Outcome.next) ∧
    (∀ s1 : State,
      limiterAt "/login" env.loginExceeded req env.limiterNow env.limiterLabel s1 =
        (s1, Outcome.next) ∧
      limiterAt "/data" env.dataExceeded req env.limiterNow env.limiterLabel s1 =
        (s1, Outcome.next)) ∧
    mitigationGate req env s = banCheckMiddleware req env.banCheckNow s ∧
    (mitigationGate req env s).1.requestLogs = s.requestLogs ∧
    (mitigationGate req env s).1.requestTimeline = s.requestTimeline ∧
    (mitigationGate req env s).1.banTimeline = s.banTimeline ∧
    (mitigationGate req env s).1.requestCount = s.requestCount ∧
    (∀ expiresAt : ℚ, JSMap.get s.blockedIPs (clientIP req) = some expiresAt →
      env.banCheckNow < expiresAt → mitigationGate req env s = (s, Outcome.respond 403)) := by
  obtain ⟨hskip, hpot, hlogin, hdata⟩ := observability_path_facts req.path hpath
  have hlog : loggingMiddleware req env.ipInfo env.logTimestamp env.logLabel s =
      (s, Outcome.next) := by
    simp only [loggingMiddleware, hskip, if_true]
  have hhoney : honeypotMiddleware req env.adjNow env.adjLabel env.honeypotNow
      env.honeypotTimestamp s = (s, Outcome.next) := by
    simp only [honeypotMiddleware, if_neg hpot]
  have hlim1 : ∀ s1 : State,
      limiterAt "/login" env.loginExceeded req env.limiterNow env.limiterLabel s1 =
        (s1, Outcome.next) := by
    intro s1; simp [limiterAt, hlogin]
  have hlim2 : ∀ s1 : State,
      limiterAt "/data" env.dataExceeded req env.limiterNow env.limiterLabel s1 =
        (s1, Outcome.next) := by
    intro s1; simp [limiterAt, hdata]
  have hgate : mitigationGate req env s = banCheckMiddleware req env.banCheckNow s := by
    unfold mitigationGate
    rw [andThen_of_next _ _ s s hlog, andThen_of_next _ _ s s hhoney]
    apply andThen_of_passes
    intro s1
    rw [andThen_of_next _ _ s1 s1 (hlim1 s1)]
    exact hlim2 s1
  have hframe : (banCheckMiddleware req env.banCheckNow s).1.requestLogs = s.requestLogs ∧
      (banCheckMiddleware req env.banCheckNow s).1.requestTimeline = s.requestTimeline ∧
      (banCheckMiddleware req env.banCheckNow s).1.banTimeline = s.banTimeline ∧
      (banCheckMiddleware req env.banCheckNow s).1.requestCount = s.requestCount := by
    cases hg : JSMap.get s.blockedIPs (clientIP req) with
    | none =>
      simp only [banCheckMiddleware, hg]
      exact ⟨trivial, trivial, trivial, trivial⟩
    | some unbanTime =>
      by_cases hlive : env.banCheckNow < unbanTime
      · simp only [banCheckMiddleware, hg, if_pos hlive]
        exact ⟨trivial, trivial, trivial, trivial⟩
      · simp only [banCheckMiddleware, hg, if_neg hlive]
        exact ⟨trivial, trivial, trivial, trivial⟩
  refine ⟨hlog, hhoney, fun s1 => ⟨hlim1 s1, hlim2 s1⟩, hgate, ?_, ?_, ?_, ?_, ?_⟩
  · rw [hgate]; exact hframe.1
  · rw [hgate]; exact hframe.2.1
  · rw [hgate]; exact hframe.2.2.1
  · rw [hgate]; exact hframe.2.2.2
  · intro expiresAt hget hlive
    rw [hgate]
    simp only [banCheckMiddleware, hget, if_pos hlive]

/-- Witness of C15, amended: the `/dashboard` request of the banned `10.0.0.3`
leaves `sampleState` as it is and is answered 403. -/
theorem observability_paths_witness :
    mitigationGate sampleDashboardRequest sampleEnv sampleState =
      (sampleState, Outcome.respond 403) :=
  (observability_paths sampleDashboardRequest sampleEnv sampleState (by decide)).2.2.2.2.2.2.2.2
    86400000 (by decide!) (by decide!)

theorem mitigationGate_of_live_ban (req : Request) (env : RequestEnv) (s : State)
    (expiresAt : ℚ) (hskip : skipsLogging req.path = false)
    (hpot : toLowerCase req.path ∉ honeypots)
    (hban : JSMap.get s.blockedIPs (clientIP req) = some expiresAt)
    (hlive : env.banCheckNow < expiresAt) :
    mitigationGate req env s =
      ((loggingMiddleware req env.ipInfo env.logTimestamp env.logLabel s).1,
        Outcome.respond 403) := by
  have hlog : (loggingMiddleware req env.ipInfo env.logTimestamp env.logLabel s).2 =
      Outcome.next := by
    simp [loggingMiddleware, hskip]
  have hblocked : (loggingMiddleware req env.ipInfo env.logTimestamp env.logLabel s).1.blockedIPs
      = s.blockedIPs := by
    simp [loggingMiddleware, hskip]
  unfold mitigationGate
  rw [andThen_of_next _ _ s (loggingMiddleware req env.ipInfo env.logTimestamp env.logLabel s).1
    (Prod.ext rfl hlog)]
  rw [andThen_of_next _ _ _ (loggingMiddleware req env.ipInfo env.logTimestamp env.logLabel s).1
    (by simp only [honeypotMiddleware, if_neg hpot])]
  have hcheck : banCheckMiddleware req env.banCheckNow
      (loggingMiddleware req env.ipInfo env.logTimestamp env.logLabel s).1 =
      ((loggingMiddleware req env.ipInfo env.logTimestamp env.logLabel s).1,
        Outcome.respond 403) := by
    simp only [banCheckMiddleware, hblocked, hban, if_pos hlive]
  simp only [andThen, hcheck]

/-- C16 fails as stated: the request of the banned `10.0.0.3` for `/data` is denied
by the ban check with 403, yet the log and the request timeline of `sampleState`
have changed. -/
theorem denied_request_counterexample :
    JSMap.get sampleState.blockedIPs (clientIP sampleBannedRequest) = some 86400000 ∧
      sampleEnv.banCheckNow < 86400000 ∧
      (mitigationGate sampleBannedRequest sampleEnv sampleState).2 = Outcome.respond 403 ∧
      (mitigationGate sampleBannedRequest sampleEnv sampleState).1.requestLogs ≠
        sampleState.requestLogs ∧
      (mitigationGate sampleBannedRequest sampleEnv sampleState).1.requestTimeline ≠
        sampleState.requestTimeline := by
  decide!

/-! ## Deltas that are not positive -/

/-- C17 fails as stated: `adjustRiskScore("10.0.0.9", -1)` on `sampleState`, where
`10.0.0.9` has no record, changes the score map: it stores the score -1. -/
theorem nonpositive_delta_counterexample :
    (-1 : ℚ) ≤ 0 ∧
      JSMap.get sampleState.ipReputation "10.0.0.9" = none ∧
      JSMap.get (adjustRiskScore "10.0.0.9" (-1) 1000 "2025-01-01T00:00"
        sampleState).ipReputation "10.0.0.9" = some (-1) ∧
      (adjustRiskScore "10.0.0.9" (-1) 1000 "2025-01-01T00:00" sampleState).ipReputation ≠
        sampleState.ipReputation := by
  decide!

/-- C17, amended: `adjustRiskScore` has no guard on the delta.  For every state,
every address whose stored score (0 when absent) is below 5 and every
`delta ≤ 0`, the call returns, leaves the ban map and the ban timeline unchanged,
stores the score plus `delta` for the address, whatever its sign, and leaves the
score of every other address unchanged. -/
theorem nonpositive_delta (s : State) (ip : String) (now delta : ℚ) (minuteLabel : String)
    (hdelta : delta ≤ 0) (hscore : (JSMap.get s.ipReputation ip).getD 0 < 5) :
    (adjustRiskScore ip delta now minuteLabel s).blockedIPs = s.blockedIPs ∧
    (adjustRiskScore ip delta now minuteLabel s).banTimeline = s.banTimeline ∧
    JSMap.get (adjustRiskScore ip delta now minuteLabel s).ipReputation ip =
      some ((JSMap.get s.ipReputation ip).getD 0 + delta) ∧
    ∀ other : String, other ≠ ip →
      JSMap.get (adjustRiskScore ip delta now minuteLabel s).ipReputation other =
        JSMap.get s.ipReputation other := by
  have hlt : (JSMap.get s.ipReputation ip).getD 0 + delta < 5 := by linarith
  rw [adjustRiskScore_of_lt ip delta now minuteLabel s hlt]
  exact ⟨rfl, rfl, JSMap.get_set_self _ _ _, fun other hne => JSMap.get_set_other _ _ _ _ hne⟩

/-- Witness of C17, amended: delta 0 on the fresh address `10.0.0.9` stores the
score 0. -/
theorem nonpositive_delta_witness :
    JSMap.get (adjustRiskScore "10.0.0.9" 0 1000 "2025-01-01T00:00"
      sampleState).ipReputation "10.0.0.9" = some 0 := by
  have h := (nonpositive_delta sampleState "10.0.0.9" 1000 0 "2025-01-01T00:00"
    (le_refl 0) (by decide!)).2.2.1
  rw [h]
  have hget : JSMap.get sampleState.ipReputation "10.0.0.9" = none := by decide!
  rw [hget]
  norm_num

/-! ## Input validation -/

/-- C18: a `POST /ban` or `POST /unban` whose body has no `ip`, missing or empty,
is answered with 400 and leaves the whole state, in particular the ban map, the
score map and the ban timeline, unchanged. -/
theorem missing_ip_rejected (req : Request) (now : ℚ) (minuteLabel : String) (s : State)
    (hbody : req.bodyIp = none ∨ req.bodyIp = some "") :
    postBan req now minuteLabel s = (s, Outcome.respond 400) ∧
    postUnban req s = (s, Outcome.respond 400) ∧
    (postBan req now minuteLabel s).1.blockedIPs = s.blockedIPs ∧
    (postBan req now minuteLabel s).1.ipReputation = s.ipReputation ∧
    (postBan req now minuteLabel s).1.banTimeline = s.banTimeline ∧
    (postUnban req s).1.blockedIPs = s.blockedIPs ∧
    (postUnban req s).1.ipReputation = s.ipReputation ∧
    (postUnban req s).1.banTimeline = s.banTimeline := by
  have hb : postBan req now minuteLabel s = (s, Outcome.respond 400) := by
    rcases hbody with h | h <;> simp [postBan, h]
  have hu : postUnban req s = (s, Outcome.respond 400) := by
    rcases hbody with h | h <;> simp [postUnban, h]
  rw [hb, hu]
  exact ⟨rfl, rfl, rfl, rfl, rfl, rfl, rfl, rfl⟩

/-- Witness of C18: `POST /ban` without a body ip on `sampleState`. -/
theorem missing_ip_rejected_witness :
    postBan sampleEmptyBanRequest 1000 "2025-01-01T00:00" sampleState =
      (sampleState, Outcome.respond 400) :=
  (missing_ip_rejected sampleEmptyBanRequest 1000 "2025-01-01T00:00" sampleState
    (Or.inl rfl)).1

/-! ## The risk distribution -/

theorem Histogram.get_set (d : Histogram) (bucket b : ℤ) (value : ℕ) :
    Histogram.get (Histogram.set d bucket value) b =
      if bucket = b then some value else Histogram.get d b := by
  induction d with
  | nil => simp [Histogram.set, Histogram.get]
  | cons e rest ih =>
    obtain ⟨k, v⟩ := e
    by_cases hk : k = bucket
    · subst hk
      by_cases hb : k = b
      · simp [Histogram.set, Histogram.get, hb]
      · simp [Histogram.set, Histogram.get, hb]
    · by_cases hb : k = b
      · subst hb
        have hne : ¬ bucket = k := fun h => hk h.symm
        simp [Histogram.set, Histogram.get, hk, hne]
      · simp [Histogram.set, Histogram.get, hk, hb, ih]

theorem Histogram.get_increment (d : Histogram) (bucket b : ℤ) :
    Histogram.get (Histogram.increment d bucket) b =
      if bucket = b then some ((Histogram.get d b).getD 0 + 1) else Histogram.get d b := by
  unfold Histogram.increment
  rw [Histogram.get_set]
  by_cases h : bucket = b
  · subst h; simp
  · simp [h]

theorem Histogram.sum_increment (d : Histogram) (bucket : ℤ) :
    ((Histogram.increment d bucket).map Prod.snd).sum = (d.map Prod.snd).sum + 1 := by
  unfold Histogram.increment
  induction d with
  | nil => simp [Histogram.set, Histogram.get]
  | cons e rest ih =>
    obtain ⟨k, v⟩ := e
    by_cases hk : k = bucket
    · simp [Histogram.set, Histogram.get, hk]
      omega
    · simp only [Histogram.set, Histogram.get, if_neg hk, List.map_cons, List.sum_cons]
      rw [ih]
      omega

theorem Histogram.keys_increment (d : Histogram) (bucket : ℤ)
    (h : (d.map Prod.fst).Nodup) : ((Histogram.increment d bucket).map Prod.fst).Nodup := by
  unfold Histogram.increment
  generalize (Histogram.get d bucket).getD 0 + 1 = value
  induction d with
  | nil => simp [Histogram.set]
  | cons e rest ih =>
    obtain ⟨k, v⟩ := e
    simp only [List.map_cons, List.nodup_cons] at h
    by_cases hk : k = bucket
    · simp only [Histogram.set, if_pos hk, List.map_cons, List.nodup_cons]
      exact h
    · simp only [Histogram.set, if_neg hk, List.map_cons, List.nodup_cons]
      refine ⟨?_, ih h.2⟩
      intro hmem
      have hsub : ∀ (m : Histogram) (x : ℤ),
          x ∈ (Histogram.set m bucket value).map Prod.fst → x ∈ m.map Prod.fst ∨ x = bucket := by
        intro m
        induction m with
        | nil =>
          intro x hx
          simp only [Histogram.set, List.map_cons, List.map_nil, List.mem_singleton] at hx
          exact Or.inr hx
        | cons a tl ihm =>
          intro x hx
          obtain ⟨ka, va⟩ := a
          by_cases hka : ka = bucket
          · simp only [Histogram.set, if_pos hka, List.map_cons] at hx
            exact Or.inl (by simpa using hx)
          · simp only [Histogram.set, if_neg hka, List.map_cons, List.mem_cons] at hx
            rcases hx with hx | hx
            · exact Or.inl (by simp [hx])
            · rcases ihm x hx with h1 | h1
              · exact Or.inl (by simp only [List.map_cons, List.mem_cons]; exact Or.inr h1)
              · exact Or.inr h1
      rcases hsub rest k hmem with h1 | h1
      · exact h.1 h1
      · exact hk h1

theorem foldl_increment_get (rep : JSMap ℚ) (b : ℤ) :
    ∀ d : Histogram,
      Histogram.get (rep.foldl (fun acc entry => Histogram.increment acc ⌊entry.2⌋) d) b =
        if rep.countP (fun e => decide (⌊e.2⌋ = b)) = 0 then Histogram.get d b
        else some ((Histogram.get d b).getD 0 + rep.countP (fun e => decide (⌊e.2⌋ = b))) := by
  induction rep with
  | nil => intro d; simp
  | cons e rest ih =>
    intro d
    rw [List.foldl_cons, ih, Histogram.get_increment]
    by_cases he : ⌊e.2⌋ = b
    · have hc : List.countP (fun e => decide (⌊e.2⌋ = b)) (e :: rest) =
          List.countP (fun e => decide (⌊e.2⌋ = b)) rest + 1 := by
        rw [List.countP_cons_of_pos]; simpa using he
      rw [hc, if_pos he]
      by_cases h0 : List.countP (fun e => decide (⌊e.2⌋ = b)) rest = 0
      · simp [h0]
      · simp only [if_neg h0, Option.getD_some, Nat.succ_ne_zero, if_false, Nat.add_eq_zero,
          one_ne_zero, and_false]
        congr 1
        omega
    · have hc : List.countP (fun e => decide (⌊e.2⌋ = b)) (e :: rest) =
          List.countP (fun e => decide (⌊e.2⌋ = b)) rest := by
        rw [List.countP_cons_of_neg]; simpa using he
      rw [hc, if_neg he]

theorem foldl_increment_sum (rep : JSMap ℚ) :
    ∀ d : Histogram,
      ((rep.foldl (fun acc entry => Histogram.increment acc ⌊entry.2⌋) d).map Prod.snd).sum =
        (d.map Prod.snd).sum + rep.length := by
  induction rep with
  | nil => intro d; simp
  | cons e rest ih =>
    intro d
    rw [List.foldl_cons, ih, Histogram.sum_increment, List.length_cons]
    omega

theorem foldl_increment_keys (rep : JSMap ℚ) :
    ∀ d : Histogram, (d.map Prod.fst).Nodup →
      ((rep.foldl (fun acc entry => Histogram.increment acc ⌊entry.2⌋) d).map
        Prod.fst).Nodup := by
  induction rep with
  | nil => intro d h; exact h
  | cons e rest ih =>
    intro d h
    rw [List.foldl_cons]
    exact ih _ (Histogram.keys_increment d _ h)

/-- C19: for every score map, the histogram of `GET /risk-distribution` (and of
`updateRiskDistribution`) has, for each integer `b`, the count of the records
whose score `s` has `⌊s⌋ = b`; a bucket without such a record is absent; no
bucket occurs twice, and the counts sum to the number of records. -/
theorem risk_distribution (rep : JSMap ℚ) :
    (∀ b : ℤ, Histogram.get (riskDistribution rep) b =
      if rep.countP (fun e => decide (⌊e.2⌋ = b)) = 0 then none
      else some (rep.countP (fun e => decide (⌊e.2⌋ = b)))) ∧
    ((riskDistribution rep).map Prod.fst).Nodup ∧
    ((riskDistribution rep).map Prod.snd).sum = rep.length := by
  refine ⟨fun b => ?_, ?_, ?_⟩
  · unfold riskDistribution
    rw [foldl_increment_get rep b []]
    simp [Histogram.get]
  · exact foldl_increment_keys rep [] List.nodup_nil
  · unfold riskDistribution
    rw [foldl_increment_sum rep []]
    simp

/-! ## The request-log table of the dashboard -/

theorem displayedLogs_no_filter (logs : List LogEntry) :
    displayedLogs logs "" = logs.take 50 := by
  simp [displayedLogs]

/-- C20: on a log of 51 entries and without a filter the table shows the 50 oldest
entries; the most recent entry is not among the rows, and the rows differ from
the last 50 entries. -/
theorem displayedLogs_shows_oldest :
    displayedLogs sampleLogs "" = List.replicate 50 sampleLogEntry ∧
      newerLogEntry ∉ displayedLogs sampleLogs "" ∧
      displayedLogs sampleLogs "" ≠ sampleLogs.drop (sampleLogs.length - 50) := by
  have h : displayedLogs sampleLogs "" = List.replicate 50 sampleLogEntry := by
    rw [displayedLogs_no_filter]
    decide
  rw [h]
  refine ⟨rfl, ?_, ?_⟩
  · decide
  · decide

/-! ## The invariant of the server as wired -/

theorem JSMap.isSome_get_set {β : Type} (m : JSMap β) (key other : String) (val : β)
    (h : (JSMap.get m other).isSome = true) :
    (JSMap.get (JSMap.set m key val) other).isSome = true := by
  by_cases hk : other = key
  · subst hk
    rw [JSMap.get_set_self]
    rfl
  · rw [JSMap.get_set_other m key other val hk]
    exact h

theorem JSMap.ne_of_mem_delete {β : Type} (m : JSMap β) (key : String) (e : String × β)
    (h : e ∈ JSMap.delete m key) : e.1 ≠ key := by
  have h2 := (List.mem_filter.mp h).2
  simpa using h2

theorem isWiredScore_cases (score : ℚ) (h : IsWiredScore score) :
    score = 1 ∨ score = 2 ∨ score = 3 ∨ score = 4 ∨ score = 5 := by
  obtain ⟨n, h1, h5, rfl⟩ := h
  have hn : n = 1 ∨ n = 2 ∨ n = 3 ∨ n = 4 ∨ n = 5 := by omega
  rcases hn with rfl | rfl | rfl | rfl | rfl <;> norm_num

/-- The invariant only looks at the score map and at which addresses have a ban
record. -/
theorem wiredInvariant_of_same_scores (s t : State) (hs : WiredInvariant s)
    (hrep : t.ipReputation = s.ipReputation)
    (hban : ∀ ip : String, (JSMap.get s.blockedIPs ip).isSome = true →
      (JSMap.get t.blockedIPs ip).isSome = true) : WiredInvariant t := by
  refine ⟨?_, ?_⟩
  · rw [hrep]; exact hs.1
  · intro e he h5
    rw [hrep] at he
    exact hban e.1 (hs.2 e he h5)

theorem wiredInvariant_delete (s t : State) (ip : String) (hs : WiredInvariant s)
    (hrep : t.ipReputation = JSMap.delete s.ipReputation ip)
    (hban : t.blockedIPs = JSMap.delete s.blockedIPs ip) : WiredInvariant t := by
  refine ⟨?_, ?_⟩
  · intro e he
    rw [hrep] at he
    exact hs.1 e (JSMap.mem_of_mem_delete _ _ _ he)
  · intro e he h5
    rw [hrep] at he
    have hne : e.1 ≠ ip := JSMap.ne_of_mem_delete _ _ _ he
    rw [hban, JSMap.get_delete_other _ _ _ hne]
    exact hs.2 e (JSMap.mem_of_mem_delete _ _ _ he) h5

theorem wiredInvariant_store (s t : State) (ip : String) (score : ℚ)
    (hs : WiredInvariant s) (hscore : IsWiredScore score) (hne : score ≠ 5)
    (hrep : t.ipReputation = JSMap.set s.ipReputation ip score)
    (hban : t.blockedIPs = s.blockedIPs) : WiredInvariant t := by
  refine ⟨?_, ?_⟩
  · intro e he
    rw [hrep] at he
    rcases JSMap.mem_set _ _ _ _ he with h | h
    · exact hs.1 e h
    · rw [h]; exact hscore
  · intro e he h5
    rw [hrep] at he
    rw [hban]
    rcases JSMap.mem_set _ _ _ _ he with h | h
    · exact hs.2 e h h5
    · rw [h] at h5
      exact absurd h5 hne

theorem wiredInvariant_postBan (req : Request) (now : ℚ) (minuteLabel : String) (s : State)
    (hs : WiredInvariant s) : WiredInvariant (postBan req now minuteLabel s).1 := by
  cases hb : req.bodyIp with
  | none =>
    simp only [postBan, hb]
    exact hs
  | some ip =>
    by_cases hip : ip = ""
    · simp only [postBan, hb, if_pos hip]
      exact hs
    · simp only [postBan, hb, if_neg hip]
      refine ⟨?_, ?_⟩
      · intro e he
        rcases JSMap.mem_set _ _ _ _ he with h | h
        · exact hs.1 e h
        · rw [h]; exact ⟨5, by norm_num, by norm_num, by norm_num⟩
      · intro e he h5
        rcases JSMap.mem_set _ _ _ _ he with h | h
        · exact JSMap.isSome_get_set _ _ _ _ (hs.2 e h h5)
        · rw [h]
          show (JSMap.get (JSMap.set s.blockedIPs ip (now + 10 * 60 * 1000)) ip).isSome = true
          rw [JSMap.get_set_self]
          rfl

theorem wiredInvariant_postUnban (req : Request) (s : State) (hs : WiredInvariant s) :
    WiredInvariant (postUnban req s).1 := by
  cases hb : req.bodyIp with
  | none =>
    simp only [postUnban, hb]
    exact hs
  | some ip =>
    by_cases hip : ip = ""
    · simp only [postUnban, hb, if_pos hip]
      exact hs
    · simp only [postUnban, hb, if_neg hip]
      exact wiredInvariant_delete s _ ip hs rfl rfl

theorem wiredInvariant_foldl_decayStep (blocked : JSMap ℚ) (entries : List (String × ℚ))
    (hentries : ∀ e ∈ entries, IsWiredScore e.2) :
    ∀ rep : JSMap ℚ,
      ((∀ e ∈ rep, IsWiredScore e.2) ∧
        ∀ e ∈ rep, e.2 = 5 → (JSMap.get blocked e.1).isSome = true) →
      ((∀ e ∈ entries.foldl decayStep rep, IsWiredScore e.2) ∧
        ∀ e ∈ entries.foldl decayStep rep, e.2 = 5 →
          (JSMap.get blocked e.1).isSome = true) := by
  induction entries with
  | nil => intro rep h; exact h
  | cons a rest ih =>
    intro rep h
    rw [List.foldl_cons]
    apply ih (fun e he => hentries e (List.mem_cons_of_mem _ he))
    have ha := isWiredScore_cases a.2 (hentries a (List.mem_cons_self _ _))
    by_cases hc : a.2 - RISK_DECAY_AMOUNT ≤ 0
    · simp only [decayStep, if_pos hc]
      exact ⟨fun e he => h.1 e (JSMap.mem_of_mem_delete _ _ _ he),
        fun e he h5 => h.2 e (JSMap.mem_of_mem_delete _ _ _ he) h5⟩
    · simp only [decayStep, if_neg hc]
      have hnew : IsWiredScore (a.2 - RISK_DECAY_AMOUNT) ∧ a.2 - RISK_DECAY_AMOUNT ≠ 5 := by
        simp only [RISK_DECAY_AMOUNT] at hc ⊢
        rcases ha with h1 | h1 | h1 | h1 | h1 <;> rw [h1] at hc ⊢
        · exact absurd (by norm_num) hc
        · exact ⟨⟨1, by norm_num, by norm_num, by norm_num⟩, by norm_num⟩
        · exact ⟨⟨2, by norm_num, by norm_num, by norm_num⟩, by norm_num⟩
        · exact ⟨⟨3, by norm_num, by norm_num, by norm_num⟩, by norm_num⟩
        · exact ⟨⟨4, by norm_num, by norm_num, by norm_num⟩, by norm_num⟩
      refine ⟨?_, ?_⟩
      · intro e he
        rcases JSMap.mem_set _ _ _ _ he with h1 | h1
        · exact h.1 e h1
        · rw [h1]; exact hnew.1
      · intro e he h5
        rcases JSMap.mem_set _ _ _ _ he with h1 | h1
        · exact h.2 e h1 h5
        · rw [h1] at h5
          exact absurd h5 hnew.2

theorem wiredInvariant_decayTick (s : State) (hs : WiredInvariant s) :
    WiredInvariant (decayTick s) :=
  wiredInvariant_foldl_decayStep s.blockedIPs s.ipReputation hs.1 s.ipReputation hs

theorem wiredInvariant_getD_nonneg (s : State) (hs : WiredInvariant s) (ip : String)
    (v : ℚ) (hget : JSMap.get s.ipReputation ip = some v) : 0 ≤ v := by
  have h := isWiredScore_cases v (hs.1 _ (JSMap.mem_of_get_eq_some _ ip v hget))
  rcases h with h | h | h | h | h <;> rw [h] <;> norm_num

theorem loggingMiddleware_outcome (req : Request) (ipInfo : Option IPInfo)
    (timestamp minuteLabel : String) (s : State) :
    (loggingMiddleware req ipInfo timestamp minuteLabel s).2 = Outcome.next ∧
    (loggingMiddleware req ipInfo timestamp minuteLabel s).1.ipReputation = s.ipReputation ∧
    (loggingMiddleware req ipInfo timestamp minuteLabel s).1.blockedIPs = s.blockedIPs := by
  by_cases h : skipsLogging req.path = true
  · simp [loggingMiddleware, h]
  · simp [loggingMiddleware, h]

theorem wiredInvariant_honeypot (req : Request) (adjNow : ℚ) (adjLabel : String) (now : ℚ)
    (timestamp : String) (s : State) (hs : WiredInvariant s) :
    WiredInvariant (honeypotMiddleware req adjNow adjLabel now timestamp s).1 := by
  by_cases hit : toLowerCase req.path ∈ honeypots
  · rw [honeypotMiddleware_of_hit req adjNow adjLabel now timestamp s hit
      (wiredInvariant_getD_nonneg s hs (clientIP req))]
    exact wiredInvariant_of_same_scores s _ hs rfl
      (fun ip h => JSMap.isSome_get_set _ _ _ _ (JSMap.isSome_get_set _ _ _ _ h))
  · simp only [honeypotMiddleware, if_neg hit]
    exact hs

theorem honeypot_ban_records (req : Request) (adjNow : ℚ) (adjLabel : String) (now : ℚ)
    (timestamp : String) (s : State) (hs : WiredInvariant s)
    (hit : toLowerCase req.path ∈ honeypots) (ip : String) :
    JSMap.get (honeypotMiddleware req adjNow adjLabel now timestamp s).1.blockedIPs ip =
        JSMap.get s.blockedIPs ip ∨
      JSMap.get (honeypotMiddleware req adjNow adjLabel now timestamp s).1.blockedIPs ip =
        some (now + 86400000) := by
  rw [honeypotMiddleware_of_hit req adjNow adjLabel now timestamp s hit
    (wiredInvariant_getD_nonneg s hs (clientIP req))]
  by_cases hip : ip = clientIP req
  · right
    subst hip
    show JSMap.get (JSMap.set _ (clientIP req) (now + 1440 * 60 * 1000)) (clientIP req) = _
    rw [JSMap.get_set_self]
    norm_num
  · left
    show JSMap.get (JSMap.set (JSMap.set s.blockedIPs (clientIP req) _) (clientIP req) _) ip = _
    rw [JSMap.get_set_other _ _ _ _ hip, JSMap.get_set_other _ _ _ _ hip]

theorem banCheck_cases (req : Request) (now : ℚ) (s : State) :
    banCheckMiddleware req now s = (s, Outcome.respond 403) ∨
    (banCheckMiddleware req now s = (s, Outcome.next) ∧
      JSMap.get s.blockedIPs (clientIP req) = none) ∨
    banCheckMiddleware req now s =
      ({ s with
         blockedIPs := JSMap.delete s.blockedIPs (clientIP req)
         ipReputation := JSMap.delete s.ipReputation (clientIP req) }, Outcome.next) := by
  cases hg : JSMap.get s.blockedIPs (clientIP req) with
  | none =>
    right; left
    simp only [banCheckMiddleware, hg, and_self]
  | some unbanTime =>
    by_cases hlive : now < unbanTime
    · left
      simp only [banCheckMiddleware, hg, if_pos hlive]
    · right; right
      simp only [banCheckMiddleware, hg, if_neg hlive]

theorem wiredInvariant_banCheck (req : Request) (now : ℚ) (s : State)
    (hs : WiredInvariant s) : WiredInvariant (banCheckMiddleware req now s).1 := by
  rcases banCheck_cases req now s with h | h | h
  · rw [h]; exact hs
  · rw [h.1]; exact hs
  · rw [h]; exact wiredInvariant_delete s _ (clientIP req) hs rfl rfl

theorem banCheck_ban_records (req : Request) (now : ℚ) (s : State) (ip : String) :
    JSMap.get (banCheckMiddleware req now s).1.blockedIPs ip = JSMap.get s.blockedIPs ip ∨
      JSMap.get (banCheckMiddleware req now s).1.blockedIPs ip = none := by
  rcases banCheck_cases req now s with h | h | h
  · rw [h]; exact Or.inl rfl
  · rw [h.1]; exact Or.inl rfl
  · rw [h]
    by_cases hip : ip = clientIP req
    · right
      subst hip
      exact JSMap.get_delete_self _ _
    · left
      exact JSMap.get_delete_other _ _ _ hip

theorem banCheck_next_no_record (req : Request) (now : ℚ) (s s2 : State)
    (h : banCheckMiddleware req now s = (s2, Outcome.next)) :
    JSMap.get s2.blockedIPs (clientIP req) = none := by
  rcases banCheck_cases req now s with h1 | h1 | h1
  · rw [h1] at h
    cases h
  · rw [h1.1] at h
    cases h
    exact h1.2
  · rw [h1] at h
    cases h
    exact JSMap.get_delete_self _ _

/-- The quota-exceeded handler in a state where the address has no ban record:
either the score goes up by one and stays below 5, or the score was 4 and a ban
of 25 minutes is installed. -/
theorem rateLimitHandler_wired (req : Request) (now : ℚ) (minuteLabel : String) (s : State)
    (hs : WiredInvariant s) (hnone : JSMap.get s.blockedIPs (clientIP req) = none) :
    WiredInvariant (rateLimitHandler req now minuteLabel s).1 ∧
      ((rateLimitHandler req now minuteLabel s).1.blockedIPs = s.blockedIPs ∨
        (rateLimitHandler req now minuteLabel s).1.blockedIPs =
          JSMap.set s.blockedIPs (clientIP req) (now + 1500000)) := by
  have hold : (JSMap.get s.ipReputation (clientIP req)).getD 0 = 0 ∨
      (JSMap.get s.ipReputation (clientIP req)).getD 0 = 1 ∨
      (JSMap.get s.ipReputation (clientIP req)).getD 0 = 2 ∨
      (JSMap.get s.ipReputation (clientIP req)).getD 0 = 3 ∨
      (JSMap.get s.ipReputation (clientIP req)).getD 0 = 4 := by
    cases hg : JSMap.get s.ipReputation (clientIP req) with
    | none => left; rfl
    | some v =>
      have hmem := JSMap.mem_of_get_eq_some _ _ v hg
      have hv := isWiredScore_cases v (hs.1 _ hmem)
      simp only [Option.getD_some]
      rcases hv with h | h | h | h | h
      · exact Or.inr (Or.inl h)
      · exact Or.inr (Or.inr (Or.inl h))
      · exact Or.inr (Or.inr (Or.inr (Or.inl h)))
      · exact Or.inr (Or.inr (Or.inr (Or.inr h)))
      · have hsome := hs.2 _ hmem h
        rw [hnone] at hsome
        cases hsome
  by_cases hfour : (JSMap.get s.ipReputation (clientIP req)).getD 0 = 4
  · have hge : 5 ≤ (JSMap.get s.ipReputation (clientIP req)).getD 0 + 1 := by
      rw [hfour]; norm_num
    simp only [rateLimitHandler, adjustRiskScore_of_ge (clientIP req) 1 now minuteLabel s hge]
    refine ⟨wiredInvariant_of_same_scores s _ hs rfl
      (fun ip h => JSMap.isSome_get_set _ _ _ _ h), Or.inr ?_⟩
    rw [hfour]
    norm_num
  · have hlt : (JSMap.get s.ipReputation (clientIP req)).getD 0 + 1 < 5 := by
      rcases hold with h | h | h | h | h
      · rw [h]; norm_num
      · rw [h]; norm_num
      · rw [h]; norm_num
      · rw [h]; norm_num
      · exact absurd h hfour
    simp only [rateLimitHandler, adjustRiskScore_of_lt (clientIP req) 1 now minuteLabel s hlt]
    refine ⟨wiredInvariant_store s _ (clientIP req) _ hs ?_ (by intro h5; linarith) rfl rfl,
      Or.inl trivial⟩
    rcases hold with h | h | h | h | h
    · exact ⟨1, by norm_num, by norm_num, by rw [h]; norm_num⟩
    · exact ⟨2, by norm_num, by norm_num, by rw [h]; norm_num⟩
    · exact ⟨3, by norm_num, by norm_num, by rw [h]; norm_num⟩
    · exact ⟨4, by norm_num, by norm_num, by rw [h]; norm_num⟩
    · exact absurd h hfour

theorem limiterAt_cases (mount : String) (quotaExceeded : Bool) (req : Request) (now : ℚ)
    (minuteLabel : String) (s : State) :
    limiterAt mount quotaExceeded req now minuteLabel s = (s, Outcome.next) ∨
      limiterAt mount quotaExceeded req now minuteLabel s =
        ((rateLimitHandler req now minuteLabel s).1, Outcome.respond 429) := by
  by_cases h : (mountMatches mount req.path && quotaExceeded) = true
  · right
    simp only [limiterAt, h, if_true, rateLimitHandler]
  · left
    simp only [limiterAt, h]
    rfl

/-- Where the state after the middleware comes from: a honeypot hit, the ban
check, or the quota-exceeded handler run after the ban check has passed; each
on the state the logging middleware leaves. -/
theorem mitigationGate_cases (req : Request) (env : RequestEnv) (s : State) :
    (toLowerCase req.path ∈ honeypots ∧
      (mitigationGate req env s).1 =
        (honeypotMiddleware req env.adjNow env.adjLabel env.honeypotNow env.honeypotTimestamp
          (loggingMiddleware req env.ipInfo env.logTimestamp env.logLabel s).1).1) ∨
    (mitigationGate req env s).1 =
      (banCheckMiddleware req env.banCheckNow
        (loggingMiddleware req env.ipInfo env.logTimestamp env.logLabel s).1).1 ∨
    ∃ s2 : State,
      banCheckMiddleware req env.banCheckNow
        (loggingMiddleware req env.ipInfo env.logTimestamp env.logLabel s).1 =
          (s2, Outcome.next) ∧
      (mitigationGate req env s).1 =
        (rateLimitHandler req env.limiterNow env.limiterLabel s2).1 := by
  have hlog : loggingMiddleware req env.ipInfo env.logTimestamp env.logLabel s =
      ((loggingMiddleware req env.ipInfo env.logTimestamp env.logLabel s).1, Outcome.next) :=
    Prod.ext rfl (loggingMiddleware_outcome req env.ipInfo env.logTimestamp env.logLabel s).1
  generalize (loggingMiddleware req env.ipInfo env.logTimestamp env.logLabel s).1 = sl at hlog
  unfold mitigationGate
  rw [andThen_of_next _ _ s sl hlog]
  by_cases hit : toLowerCase req.path ∈ honeypots
  · left
    refine ⟨hit, ?_⟩
    simp only [andThen, honeypotMiddleware, if_pos hit]
  · right
    rw [andThen_of_next _ _ sl sl (by simp only [honeypotMiddleware, if_neg hit])]
    cases hb : banCheckMiddleware req env.banCheckNow sl with
    | mk s2 outcome =>
      cases outcome with
      | respond status =>
        left
        simp only [andThen, hb]
      | next =>
        rw [andThen_of_next _ _ sl s2 hb]
        rcases limiterAt_cases "/login" env.loginExceeded req env.limiterNow env.limiterLabel s2
          with h1 | h1
        · rw [andThen_of_next _ _ s2 s2 h1]
          rcases limiterAt_cases "/data" env.dataExceeded req env.limiterNow env.limiterLabel
            s2 with h2 | h2
          · left
            rw [h2]
          · right
            exact ⟨s2, rfl, by rw [h2]⟩
        · right
          refine ⟨s2, rfl, ?_⟩
          simp only [andThen, h1]

theorem wiredInvariant_logging (req : Request) (ipInfo : Option IPInfo)
    (timestamp minuteLabel : String) (s : State) (hs : WiredInvariant s) :
    WiredInvariant (loggingMiddleware req ipInfo timestamp minuteLabel s).1 := by
  obtain ⟨_, hrep, hban⟩ := loggingMiddleware_outcome req ipInfo timestamp minuteLabel s
  exact wiredInvariant_of_same_scores s _ hs hrep (fun ip h => by rw [hban]; exact h)

theorem wiredInvariant_mitigationGate (req : Request) (env : RequestEnv) (s : State)
    (hs : WiredInvariant s) : WiredInvariant (mitigationGate req env s).1 := by
  have hsl := wiredInvariant_logging req env.ipInfo env.logTimestamp env.logLabel s hs
  rcases mitigationGate_cases req env s with ⟨_, h⟩ | h | ⟨s2, hb, h⟩
  · rw [h]; exact wiredInvariant_honeypot _ _ _ _ _ _ hsl
  · rw [h]; exact wiredInvariant_banCheck _ _ _ hsl
  · rw [h]
    have hs2 : WiredInvariant s2 := by
      have := wiredInvariant_banCheck req env.banCheckNow _ hsl
      rw [hb] at this
      exact this
    exact (rateLimitHandler_wired req env.limiterNow env.limiterLabel s2 hs2
      (banCheck_next_no_record req env.banCheckNow _ s2 hb)).1

theorem mitigationGate_ban_records (req : Request) (env : RequestEnv) (s : State)
    (hs : WiredInvariant s) (ip : String) :
    JSMap.get (mitigationGate req env s).1.blockedIPs ip = JSMap.get s.blockedIPs ip ∨
    JSMap.get (mitigationGate req env s).1.blockedIPs ip = none ∨
    JSMap.get (mitigationGate req env s).1.blockedIPs ip = some (env.limiterNow + 1500000) ∨
    JSMap.get (mitigationGate req env s).1.blockedIPs ip =
      some (env.honeypotNow + 86400000) := by
  have hsl := wiredInvariant_logging req env.ipInfo env.logTimestamp env.logLabel s hs
  have hlb := (loggingMiddleware_outcome req env.ipInfo env.logTimestamp env.logLabel s).2.2
  have hcheck := banCheck_ban_records req env.banCheckNow
    (loggingMiddleware req env.ipInfo env.logTimestamp env.logLabel s).1 ip
  rw [hlb] at hcheck
  rcases mitigationGate_cases req env s with ⟨hit, h⟩ | h | ⟨s2, hb, h⟩
  · rw [h]
    rcases honeypot_ban_records req env.adjNow env.adjLabel env.honeypotNow
      env.honeypotTimestamp _ hsl hit ip with h1 | h1
    · left; rw [h1, hlb]
    · right; right; right; exact h1
  · rw [h]
    rcases hcheck with h1 | h1
    · exact Or.inl h1
    · exact Or.inr (Or.inl h1)
  · rw [h]
    have hs2 : WiredInvariant s2 := by
      have := wiredInvariant_banCheck req env.banCheckNow _ hsl
      rw [hb] at this
      exact this
    rw [hb] at hcheck
    rcases (rateLimitHandler_wired req env.limiterNow env.limiterLabel s2 hs2
      (banCheck_next_no_record req env.banCheckNow _ s2 hb)).2 with h1 | h1
    · rw [h1]
      rcases hcheck with h2 | h2
      · exact Or.inl h2
      · exact Or.inr (Or.inl h2)
    · rw [h1]
      by_cases hip : ip = clientIP req
      · right; right; left
        subst hip
        exact JSMap.get_set_self _ _ _
      · rw [JSMap.get_set_other _ _ _ _ hip]
        rcases hcheck with h2 | h2
        · exact Or.inl h2
        · exact Or.inr (Or.inl h2)

theorem wiredInvariant_apply (e : PipelineEvent) (s : State) (hs : WiredInvariant s) :
    WiredInvariant (e.apply s) := by
  cases e with
  | request req env => exact wiredInvariant_mitigationGate req env s hs
  | ban req now minuteLabel => exact wiredInvariant_postBan req now minuteLabel s hs
  | unban req => exact wiredInvariant_postUnban req s hs
  | clearLogs => exact wiredInvariant_of_same_scores s _ hs rfl (fun _ h => h)
  | decay => exact wiredInvariant_decayTick s hs

theorem wiredInvariant_runPipeline (events : List PipelineEvent) :
    ∀ s : State, WiredInvariant s → WiredInvariant (runPipeline events s) := by
  induction events with
  | nil => intro s hs; exact hs
  | cons e rest ih =>
    intro s hs
    exact ih (e.apply s) (wiredInvariant_apply e s hs)

theorem postBan_ban_records (req : Request) (now : ℚ) (minuteLabel : String) (s : State)
    (ip : String) :
    JSMap.get (postBan req now minuteLabel s).1.blockedIPs ip = JSMap.get s.blockedIPs ip ∨
      JSMap.get (postBan req now minuteLabel s).1.blockedIPs ip = some (now + 600000) := by
  cases hb : req.bodyIp with
  | none =>
    simp only [postBan, hb]
    exact Or.inl trivial
  | some target =>
    by_cases htarget : target = ""
    · simp only [postBan, hb, if_pos htarget]
      exact Or.inl trivial
    · simp only [postBan, hb, if_neg htarget]
      by_cases hip : ip = target
      · right
        subst hip
        rw [JSMap.get_set_self]
        norm_num
      · left
        exact JSMap.get_set_other _ _ _ _ hip

theorem postUnban_ban_records (req : Request) (s : State) (ip : String) :
    JSMap.get (postUnban req s).1.blockedIPs ip = JSMap.get s.blockedIPs ip ∨
      JSMap.get (postUnban req s).1.blockedIPs ip = none := by
  cases hb : req.bodyIp with
  | none =>
    simp only [postUnban, hb]
    exact Or.inl trivial
  | some target =>
    by_cases htarget : target = ""
    · simp only [postUnban, hb, if_pos htarget]
      exact Or.inl trivial
    · simp only [postUnban, hb, if_neg htarget]
      by_cases hip : ip = target
      · right
        subst hip
        exact JSMap.get_delete_self _ _
      · left
        exact JSMap.get_delete_other _ _ _ hip

/-- C21: the server as wired, started with an empty score map.  In every state
reached by requests passing through the middleware, manual bans, unbans, log
clearings and decay ticks: (1) every stored score is an integer between 1 and 5;
(2) an address whose score is 5 has a ban record; (3) when the ban check has let
a request pass and the quota-exceeded handler then runs, it either leaves the
ban map alone or installs a ban of exactly 25 minutes; (4) after any event the
ban record of any address is the one it had before, or absent, or expires 25
minutes (rate limit), 24 hours (honeypot) or 10 minutes (manual ban) after the
clock read of that event, so the 30-minute cap is never what a ban is left
with. -/
theorem wired_pipeline (s0 : State) (hempty : s0.ipReputation = [])
    (events : List PipelineEvent) :
    (∀ (ip : String) (score : ℚ),
      JSMap.get (runPipeline events s0).ipReputation ip = some score →
        ∃ n : ℕ, 1 ≤ n ∧ n ≤ 5 ∧ score = n) ∧
    (∀ ip : String, JSMap.get (runPipeline events s0).ipReputation ip = some 5 →
      ∃ expiresAt : ℚ, JSMap.get (runPipeline events s0).blockedIPs ip = some expiresAt) ∧
    (∀ (req : Request) (checkNow now : ℚ) (minuteLabel : String) (s2 : State),
      banCheckMiddleware req checkNow (runPipeline events s0) = (s2, Outcome.next) →
        (rateLimitHandler req now minuteLabel s2).1.blockedIPs = s2.blockedIPs ∨
        (rateLimitHandler req now minuteLabel s2).1.blockedIPs =
          JSMap.set s2.blockedIPs (clientIP req) (now + 1500000)) ∧
    (∀ (e : PipelineEvent) (ip : String),
      JSMap.get (e.apply (runPipeline events s0)).blockedIPs ip =
        JSMap.get (runPipeline events s0).blockedIPs ip ∨
      JSMap.get (e.apply (runPipeline events s0)).blockedIPs ip = none ∨
      match e with
      | PipelineEvent.request _ env =>
        JSMap.get (e.apply (runPipeline events s0)).blockedIPs ip =
            some (env.limiterNow + 1500000) ∨
          JSMap.get (e.apply (runPipeline events s0)).blockedIPs ip =
            some (env.honeypotNow + 86400000)
      | PipelineEvent.ban _ now _ =>
        JSMap.get (e.apply (runPipeline events s0)).blockedIPs ip = some (now + 600000)
      | _ => False) := by
  have h0 : WiredInvariant s0 := by
    refine ⟨?_, ?_⟩ <;> rw [hempty] <;> intro e he <;> cases he
  have hs : WiredInvariant (runPipeline events s0) := wiredInvariant_runPipeline events s0 h0
  generalize runPipeline events s0 = s at hs
  refine ⟨?_, ?_, ?_, ?_⟩
  · intro ip score hget
    exact hs.1 _ (JSMap.mem_of_get_eq_some _ ip score hget)
  · intro ip hget
    have h := hs.2 _ (JSMap.mem_of_get_eq_some _ ip 5 hget) rfl
    exact Option.isSome_iff_exists.mp h
  · intro req checkNow now minuteLabel s2 hcheck
    have hs2 : WiredInvariant s2 := by
      have := wiredInvariant_banCheck req checkNow s hs
      rw [hcheck] at this
      exact this
    exact (rateLimitHandler_wired req now minuteLabel s2 hs2
      (banCheck_next_no_record req checkNow s s2 hcheck)).2
  · intro e ip
    cases e with
    | request req env =>
      rcases mitigationGate_ban_records req env s hs ip with h | h | h | h
      · exact Or.inl h
      · exact Or.inr (Or.inl h)
      · exact Or.inr (Or.inr (Or.inl h))
      · exact Or.inr (Or.inr (Or.inr h))
    | ban req now minuteLabel =>
      rcases postBan_ban_records req now minuteLabel s ip with h | h
      · exact Or.inl h
      · exact Or.inr (Or.inr h)
    | unban req =>
      rcases postUnban_ban_records req s ip with h | h
      · exact Or.inl h
      · exact Or.inr (Or.inl h)
    | clearLogs => exact Or.inl rfl
    | decay => exact Or.inl rfl

/-- Witness of C21: after four over-quota requests to `/login` the address
`10.0.0.1` has score 4, an integer between 1 and 5; the fifth such request at
time 1000 bans it until 1501000, 25 minutes later. -/
theorem wired_pipeline_witness :
    JSMap.get (runPipeline samplePipelineEvents
        (initialState "2025-01-01T00:00")).ipReputation "10.0.0.1" = some 4 ∧
      (∃ n : ℕ, 1 ≤ n ∧ n ≤ 5 ∧ (4 : ℚ) = n) ∧
      JSMap.get ((PipelineEvent.request sampleLoginRequest sampleExceededEnv).apply
        (runPipeline samplePipelineEvents (initialState "2025-01-01T00:00"))).blockedIPs
        "10.0.0.1" = some 1501000 := by
  have hget : JSMap.get (runPipeline samplePipelineEvents
      (initialState "2025-01-01T00:00")).ipReputation "10.0.0.1" = some 4 := by decide!
  have h := wired_pipeline (initialState "2025-01-01T00:00") rfl samplePipelineEvents
  exact ⟨hget, h.1 "10.0.0.1" 4 hget, by decide!⟩

/-! ## Logging comes first -/

theorem adjustRiskScore_request_fields (ip : String) (delta now : ℚ) (minuteLabel : String)
    (s : State) :
    (adjustRiskScore ip delta now minuteLabel s).requestCount = s.requestCount ∧
    (adjustRiskScore ip delta now minuteLabel s).requestTimeline = s.requestTimeline ∧
    (adjustRiskScore ip delta now minuteLabel s).requestLogs = s.requestLogs := by
  rcases le_or_lt 5 ((JSMap.get s.ipReputation ip).getD 0 + delta) with h | h
  · rw [adjustRiskScore_of_ge ip delta now minuteLabel s h]
    exact ⟨rfl, rfl, rfl⟩
  · rw [adjustRiskScore_of_lt ip delta now minuteLabel s h]
    exact ⟨rfl, rfl, rfl⟩

theorem banCheck_request_fields (req : Request) (now : ℚ) (s : State) :
    (banCheckMiddleware req now s).1.requestCount = s.requestCount ∧
    (banCheckMiddleware req now s).1.requestTimeline = s.requestTimeline ∧
    (banCheckMiddleware req now s).1.requestLogs = s.requestLogs := by
  rcases banCheck_cases req now s with h | h | h
  · rw [h]; exact ⟨rfl, rfl, rfl⟩
  · rw [h.1]; exact ⟨rfl, rfl, rfl⟩
  · rw [h]; exact ⟨rfl, rfl, rfl⟩

theorem honeypot_request_fields (req : Request) (adjNow : ℚ) (adjLabel : String) (now : ℚ)
    (timestamp : String) (s : State) :
    (honeypotMiddleware req adjNow adjLabel now timestamp s).1.requestCount =
      s.requestCount ∧
    (honeypotMiddleware req adjNow adjLabel now timestamp s).1.requestTimeline =
      s.requestTimeline ∧
    (toLowerCase req.path ∈ honeypots →
      (honeypotMiddleware req adjNow adjLabel now timestamp s).1.requestLogs =
        pushLog s.requestLogs
          { timestamp := timestamp, ip := clientIP req, method := req.method,
            path := req.url, location := "🪤 Honeypot", isp := "Suspicious" }) := by
  obtain ⟨hcount, htimeline, hlogs⟩ :=
    adjustRiskScore_request_fields (clientIP req) 5 adjNow adjLabel s
  by_cases hit : toLowerCase req.path ∈ honeypots
  · simp only [honeypotMiddleware, if_pos hit, hcount, htimeline, hlogs]
    exact ⟨trivial, trivial, fun _ => trivial⟩
  · simp only [honeypotMiddleware, if_neg hit]
    exact ⟨trivial, trivial, fun h => absurd h hit⟩

theorem mitigationGate_of_hit (req : Request) (env : RequestEnv) (s : State)
    (hit : toLowerCase req.path ∈ honeypots) :
    mitigationGate req env s =
      honeypotMiddleware req env.adjNow env.adjLabel env.honeypotNow env.honeypotTimestamp
        (loggingMiddleware req env.ipInfo env.logTimestamp env.logLabel s).1 := by
  have hlog : loggingMiddleware req env.ipInfo env.logTimestamp env.logLabel s =
      ((loggingMiddleware req env.ipInfo env.logTimestamp env.logLabel s).1, Outcome.next) :=
    Prod.ext rfl (loggingMiddleware_outcome req env.ipInfo env.logTimestamp env.logLabel s).1
  generalize (loggingMiddleware req env.ipInfo env.logTimestamp env.logLabel s).1 = sl at hlog
  unfold mitigationGate
  rw [andThen_of_next _ _ s sl hlog]
  simp only [andThen, honeypotMiddleware, if_pos hit]

/-- Whatever the later stages do with a request, they leave the request counter
and the request timeline as the logging middleware left them, and the log too
unless the honeypot adds its own entry. -/
theorem mitigationGate_request_fields (req : Request) (env : RequestEnv) (s : State) :
    (mitigationGate req env s).1.requestCount =
      (loggingMiddleware req env.ipInfo env.logTimestamp env.logLabel s).1.requestCount ∧
    (mitigationGate req env s).1.requestTimeline =
      (loggingMiddleware req env.ipInfo env.logTimestamp env.logLabel s).1.requestTimeline ∧
    (toLowerCase req.path ∉ honeypots →
      (mitigationGate req env s).1.requestLogs =
        (loggingMiddleware req env.ipInfo env.logTimestamp env.logLabel s).1.requestLogs) := by
  rcases mitigationGate_cases req env s with ⟨hit, h⟩ | h | ⟨s2, hb, h⟩
  · rw [h]
    obtain ⟨h1, h2, _⟩ := honeypot_request_fields req env.adjNow env.adjLabel env.honeypotNow
      env.honeypotTimestamp (loggingMiddleware req env.ipInfo env.logTimestamp env.logLabel s).1
    exact ⟨h1, h2, fun hno => absurd hit hno⟩
  · rw [h]
    obtain ⟨h1, h2, h3⟩ := banCheck_request_fields req env.banCheckNow
      (loggingMiddleware req env.ipInfo env.logTimestamp env.logLabel s).1
    exact ⟨h1, h2, fun _ => h3⟩
  · rw [h]
    obtain ⟨h1, h2, h3⟩ := banCheck_request_fields req env.banCheckNow
      (loggingMiddleware req env.ipInfo env.logTimestamp env.logLabel s).1
    rw [hb] at h1 h2 h3
    obtain ⟨g1, g2, g3⟩ := adjustRiskScore_request_fields (clientIP req) 1 env.limiterNow
      env.limiterLabel s2
    simp only [rateLimitHandler]
    exact ⟨g1.trans h1, g2.trans h2, fun _ => g3.trans h3⟩

/-- C16, amended: the log append, the request-timeline increment and the request
counter increment are the first stage of the pipeline, before the honeypot check
and the ban check.  A skipped request passes that stage with the state unchanged.
For every request that is not skipped, in every state, that stage appends the
entry of the request to the log, adds 1 to the request-timeline bucket of the
minute and 1 to the counter, and the later stages keep all three: after the whole
pipeline the counter and the bucket are one higher and the log has received the
entry (followed by the honeypot marker entry when the path is a decoy), whether
the request is served or denied.  In particular a request that is not skipped,
is not for a decoy path and is denied by the ban check (live ban record) is
answered 403 after it has been logged and counted, while the ban map, the score
map and the ban timeline are unchanged. -/
theorem denied_request_is_logged (req : Request) (env : RequestEnv) (s : State) :
    (skipsLogging req.path = true →
      loggingMiddleware req env.ipInfo env.logTimestamp env.logLabel s = (s, Outcome.next)) ∧
    (skipsLogging req.path = false →
      ∃ entry : LogEntry,
        entry.timestamp = env.logTimestamp ∧ entry.ip = clientIP req ∧
        entry.method = req.method ∧ entry.path = req.url ∧
        loggingMiddleware req env.ipInfo env.logTimestamp env.logLabel s =
          ({ s with
             requestCount := s.requestCount + 1
             requestLogs := pushLog s.requestLogs entry
             requestTimeline := incrementTimeline s.requestTimeline env.logLabel },
            Outcome.next) ∧
        (mitigationGate req env s).1.requestCount = s.requestCount + 1 ∧
        (mitigationGate req env s).1.requestTimeline =
          incrementTimeline s.requestTimeline env.logLabel ∧
        (toLowerCase req.path ∉ honeypots →
          (mitigationGate req env s).1.requestLogs = pushLog s.requestLogs entry) ∧
        (toLowerCase req.path ∈ honeypots →
          ∃ marker : LogEntry, marker.location = "🪤 Honeypot" ∧
            (mitigationGate req env s).1.requestLogs =
              pushLog (pushLog s.requestLogs entry) marker) ∧
        ∀ expiresAt : ℚ, toLowerCase req.path ∉ honeypots →
          JSMap.get s.blockedIPs (clientIP req) = some expiresAt →
          env.banCheckNow < expiresAt →
            (mitigationGate req env s).2 = Outcome.respond 403 ∧
            (mitigationGate req env s).1.blockedIPs = s.blockedIPs ∧
            (mitigationGate req env s).1.ipReputation = s.ipReputation ∧
            (mitigationGate req env s).1.banTimeline = s.banTimeline) := by
  refine ⟨fun hskip => ?_, fun hskip => ?_⟩
  · simp [loggingMiddleware, hskip]
  · have hlog : loggingMiddleware req env.ipInfo env.logTimestamp env.logLabel s =
        ({ s with
           requestCount := s.requestCount + 1
           requestLogs := pushLog s.requestLogs
             { timestamp := env.logTimestamp, ip := clientIP req, method := req.method,
               path := req.url,
               location :=
                 match env.ipInfo with
                 | some info => info.city ++ ", " ++ info.country
                 | none => "Unknown",
               isp :=
                 match env.ipInfo with
                 | some info => if info.isp = "" then "Unknown" else info.isp
                 | none => "Unknown" }
           requestTimeline := incrementTimeline s.requestTimeline env.logLabel },
          Outcome.next) := by
      simp [loggingMiddleware, hskip]
    obtain ⟨hcount, htimeline, hlogs⟩ := mitigationGate_request_fields req env s
    refine ⟨_, rfl, rfl, rfl, rfl, hlog, ?_, ?_, ?_, ?_, ?_⟩
    · rw [hcount, hlog]
    · rw [htimeline, hlog]
    · intro hno
      rw [hlogs hno, hlog]
    · intro hit
      refine ⟨{ timestamp := env.honeypotTimestamp, ip := clientIP req, method := req.method,
                path := req.url, location := "🪤 Honeypot", isp := "Suspicious" }, rfl, ?_⟩
      rw [mitigationGate_of_hit req env s hit,
        (honeypot_request_fields req env.adjNow env.adjLabel env.honeypotNow
          env.honeypotTimestamp _).2.2 hit, hlog]
    · intro expiresAt hno hban hlive
      rw [mitigationGate_of_live_ban req env s expiresAt hskip hno hban hlive, hlog]
      exact ⟨rfl, rfl, rfl, rfl⟩

/-- Witness of C16, amended, on `sampleState`, whose request counter is 3: the
`/data` request of the banned `10.0.0.3` is answered 403 and counted, and so is
the `/login` request of `10.0.0.1`, which has no ban record. -/
theorem denied_request_is_logged_witness :
    (mitigationGate sampleBannedRequest sampleEnv sampleState).2 = Outcome.respond 403 ∧
      (mitigationGate sampleBannedRequest sampleEnv sampleState).1.requestCount = 4 ∧
      (mitigationGate sampleLoginRequest sampleEnv sampleState).1.requestCount = 4 ∧
      (mitigationGate sampleLoginRequest sampleEnv sampleState).1.requestLogs.length = 1 := by
  obtain ⟨_, _, _, _, _, _, hcount, _, _, _, hdenied⟩ :=
    (denied_request_is_logged sampleBannedRequest sampleEnv sampleState).2 (by decide)
  obtain ⟨entry, _, _, _, _, _, hcount2, _, hlogs2, _, _⟩ :=
    (denied_request_is_logged sampleLoginRequest sampleEnv sampleState).2 (by decide)
  refine ⟨(hdenied 86400000 (by decide) (by decide!) (by decide!)).1, hcount, hcount2, ?_⟩
  rw [hlogs2 (by decide)]
  rfl

end DDos
